import Mathlib

/-!
Verification of the Entity Graph Analytics Engine (an MCP SEO knowledge-graph
analyzer written in TypeScript) against its natural-language specification.

The TypeScript sources are shallowly embedded:
* JavaScript Map objects become insertion-ordered association lists (JMap):
  set updates an existing key in place and appends a fresh key at the end,
  matching JS Map insertion-order iteration semantics.
* JavaScript Set objects become duplicate-free insertion-ordered lists.
* JS numbers become exact rationals; Math.log2 becomes Real.logb 2 over the
  reals in the PMI component.
* JS strings become Lean strings; character-level operations (toLowerCase,
  includes, split) work on the underlying character lists.
Loops are embedded as folds or structurally recursive functions; the one
unbounded while loop (the BFS inside Brandes betweenness) gets an explicit
fuel argument larger than the number of iterations the loop can make.

The file has two parts: first all definitions (the embedding of the
TypeScript source plus concrete example inputs), then all lemmas and the
claim theorems.
-/

namespace SeoKG

/-! ## JS collection model -/

/-- A JavaScript Map: an insertion-ordered association list. -/
abbrev JMap (K V : Type) : Type := List (K × V)

/-- Map.get: first binding of the key, if any. -/
def jget {K V : Type} [DecidableEq K] : JMap K V → K → Option V
  | [], _ => none
  | (k', v) :: rest, k => if k = k' then some v else jget rest k

/-- Map.set: update an existing binding in place, else append at the end
(JS Maps keep the original insertion position on update). -/
def jset {K V : Type} [DecidableEq K] : JMap K V → K → V → JMap K V
  | [], k, v => [(k, v)]
  | (k', v') :: rest, k, v =>
    if k = k' then (k', v) :: rest else (k', v') :: jset rest k v

/-- Map.keys in iteration order. -/
def jkeys {K V : Type} : JMap K V → List K
  | [] => []
  | (k, _) :: rest => k :: jkeys rest

/-- Map.values in iteration order. -/
def jvals {K V : Type} : JMap K V → List V
  | [] => []
  | (_, v) :: rest => v :: jvals rest

/-- Map.has. -/
def jhas {K V : Type} [DecidableEq K] (m : JMap K V) (k : K) : Bool :=
  (jget m k).isSome

/-- Set.add: append if not already present (JS Set keeps first insertion). -/
def jadd {K : Type} [DecidableEq K] (s : List K) (k : K) : List K :=
  if k ∈ s then s else s ++ [k]

/-- Building a JS Set from a list (insertion-order deduplication). -/
def jsDedup {K : Type} [DecidableEq K] (l : List K) : List K :=
  l.foldl jadd []

/-- A map binding every listed key to the same initial value (the init loops
of the form: for (const node of graph.nodes) m.set(node, v)). -/
def initConst {V : Type} (nodes : List String) (v : V) : JMap String V :=
  nodes.foldl (fun m n => jset m n v) []

/-- All values of a map satisfy a predicate. -/
def ValsAre {K V : Type} (P : V → Prop) (m : JMap K V) : Prop :=
  ∀ p ∈ m, P p.2

/-! ## The Graph Store (src/graph/types.ts)

An undirected weighted graph: a node set plus an adjacency map of maps.
Node identifiers are strings, weights are rationals. -/

structure SimpleGraph' where
  nodes : List String
  edges : JMap String (JMap String ℚ)
  deriving DecidableEq

/-- createGraph from src/graph/types.ts. -/
def createGraph : SimpleGraph' := { nodes := [], edges := [] }

/-- addNode from src/graph/types.ts: insert into the node set and create an
empty adjacency row unless one exists. -/
def addNode (g : SimpleGraph') (nodeId : String) : SimpleGraph' :=
  { nodes := jadd g.nodes nodeId
    edges := if jhas g.edges nodeId then g.edges else jset g.edges nodeId [] }

/-- addEdge from src/graph/types.ts: add both directions, accumulating onto
any existing weight.  The two row lookups are performed sequentially against
the current state, which reproduces the JS aliasing of sourceEdges and
targetEdges when source = target. -/
def addEdge (g : SimpleGraph') (source target : String) (weight : ℚ) : SimpleGraph' :=
  let g1 := addNode (addNode g source) target
  let sourceEdges := (jget g1.edges source).getD []
  let edges2 := jset g1.edges source
    (jset sourceEdges target (((jget sourceEdges target).getD 0) + weight))
  let targetEdges := (jget edges2 target).getD []
  let edges3 := jset edges2 target
    (jset targetEdges source (((jget targetEdges source).getD 0) + weight))
  { nodes := g1.nodes, edges := edges3 }

/-- The row-update pattern performed by each half of addEdge: accumulate w
onto entry k' of row k. -/
def rowBump (m : JMap String (JMap String ℚ)) (k k' : String) (w : ℚ) :
    JMap String (JMap String ℚ) :=
  jset m k (jset ((jget m k).getD []) k'
    (((jget ((jget m k).getD []) k').getD 0) + w))

/-- getNeighbors from src/graph/types.ts. -/
def getNeighbors (g : SimpleGraph') (nodeId : String) : List String :=
  jkeys ((jget g.edges nodeId).getD [])

/-- getDegree from src/graph/types.ts. -/
def getDegree (g : SimpleGraph') (nodeId : String) : ℕ :=
  ((jget g.edges nodeId).getD []).length

/-- getEdgeWeight from src/graph/types.ts. -/
def getEdgeWeight (g : SimpleGraph') (source target : String) : ℚ :=
  (jget ((jget g.edges source).getD []) target).getD 0

/-- hasEdge from src/graph/types.ts. -/
def hasEdge (g : SimpleGraph') (source target : String) : Bool :=
  jhas ((jget g.edges source).getD []) target

/-! ## Centrality Engine (src/graph/centrality.ts): Brandes betweenness -/

/-- State of one single-source phase of Brandes' algorithm. -/
structure BrandesBFS where
  stack : List String
  predecessors : JMap String (List String)
  sigma : JMap String ℚ
  distance : JMap String ℤ
  queue : List String

/-- Body of the inner neighbor loop of the BFS phase: possibly enqueue a
first-visited neighbor, then accumulate shortest-path counts and record the
predecessor (betweennessCentrality, lines 40-57 of centrality.ts). -/
def visitNeighbor (v : String) (st : BrandesBFS) (w : String) : BrandesBFS :=
  let distW := (jget st.distance w).getD (-1)
  let distV := (jget st.distance v).getD 0
  let st1 :=
    if distW < 0 then
      { st with queue := st.queue ++ [w], distance := jset st.distance w (distV + 1) }
    else st
  if jget st1.distance w = some (distV + 1) then
    let sigmaW := (jget st1.sigma w).getD 0
    let sigmaV := (jget st1.sigma v).getD 0
    let st2 := { st1 with sigma := jset st1.sigma w (sigmaW + sigmaV) }
    match jget st2.predecessors w with
    | some preds => { st2 with predecessors := jset st2.predecessors w (preds ++ [v]) }
    | none => st2
  else st1

/-- One iteration of the BFS while loop: dequeue v, push it on the stack and
visit its neighbors. -/
def bfsStep (g : SimpleGraph') (st : BrandesBFS) : BrandesBFS :=
  match st.queue with
  | [] => st
  | v :: rest =>
    let st0 := { st with queue := rest, stack := st.stack ++ [v] }
    (getNeighbors g v).foldl (visitNeighbor v) st0

/-- The BFS while loop, with fuel.  Each iteration dequeues one node and every
node is enqueued at most once (a node is enqueued only when its distance is
still -1, and its distance is set nonnegative at that moment), so any fuel
of at least 1 + nodes + adjacency entries makes the loop run to completion. -/
def bfsLoop (g : SimpleGraph') : ℕ → BrandesBFS → BrandesBFS
  | 0, st => st
  | fuel + 1, st =>
    match st.queue with
    | [] => st
    | _ :: _ => bfsLoop g fuel (bfsStep g st)

/-- Total number of adjacency entries over all rows. -/
def totalRowEntries (g : SimpleGraph') : ℕ :=
  (g.edges.map (fun p => p.2.length)).sum

/-- Fuel that the BFS while loop can never exhaust. -/
def bfsFuel (g : SimpleGraph') : ℕ :=
  g.nodes.length + totalRowEntries g + 1

/-- State of the accumulation phase: the per-source dependencies and the
running betweenness totals. -/
structure AccState where
  delta : JMap String ℚ
  bc : JMap String ℚ

/-- Body of the predecessor loop of the accumulation phase (lines 69-78 of
centrality.ts). -/
def accumPred (sigma : JMap String ℚ) (w : String) (st : AccState) (v : String) : AccState :=
  let sigmaV := (jget sigma v).getD 0
  let sigmaW := (jget sigma w).getD 0
  if sigmaW > 0 then
    let deltaW := (jget st.delta w).getD 0
    let contribution := sigmaV / sigmaW * (1 + deltaW)
    let deltaV := (jget st.delta v).getD 0
    { st with delta := jset st.delta v (deltaV + contribution) }
  else st

/-- Processing one node popped from the stack in the accumulation phase
(lines 66-84 of centrality.ts). -/
def accumNode (source : String) (predecessors : JMap String (List String))
    (sigma : JMap String ℚ) (st : AccState) (w : String) : AccState :=
  let preds := (jget predecessors w).getD []
  let st1 := preds.foldl (accumPred sigma w) st
  if w ≠ source then
    let bcW := (jget st1.bc w).getD 0
    let deltaW := (jget st1.delta w).getD 0
    { st1 with bc := jset st1.bc w (bcW + deltaW) }
  else st1

/-- One source iteration of Brandes' algorithm: BFS phase then accumulation
phase in reverse stack order (the while loop popping the stack). -/
def brandesSource (g : SimpleGraph') (bc : JMap String ℚ) (source : String) : JMap String ℚ :=
  let init : BrandesBFS :=
    { stack := []
      predecessors := initConst g.nodes ([] : List String)
      sigma := jset (initConst g.nodes (0 : ℚ)) source 1
      distance := jset (initConst g.nodes (-1 : ℤ)) source 0
      queue := [source] }
  let final := bfsLoop g (bfsFuel g) init
  let acc : AccState := { delta := initConst g.nodes (0 : ℚ), bc := bc }
  (final.stack.reverse.foldl (accumNode source final.predecessors final.sigma) acc).bc

/-- betweennessCentrality from src/graph/centrality.ts: all-zero map for
graphs with fewer than 3 nodes; otherwise sum the per-source dependencies and
scale every entry by 2/((n-1)(n-2)). -/
def betweennessCentrality (g : SimpleGraph') : JMap String ℚ :=
  let bc := initConst g.nodes (0 : ℚ)
  if g.nodes.length < 3 then bc
  else
    let bc2 := g.nodes.foldl (brandesSource g) bc
    let n := g.nodes.length
    if n > 2 then
      let normFactor : ℚ := 2 / (((n : ℚ) - 1) * ((n : ℚ) - 2))
      bc2.map (fun p => (p.1, p.2 * normFactor))
    else bc2

/-! ## Community Detector (src/graph/communities.ts) -/

/-- The initialization loop of detectCommunities: every node starts in its own
community, ids assigned by an increasing counter. -/
def louvainInit (nodes : List String) : JMap String ℕ :=
  (nodes.foldl (fun (p : JMap String ℕ × ℕ) node => (jset p.1 node p.2, p.2 + 1))
    ([], 0)).1

/-- Weight from a node to each neighboring community (detectCommunities,
lines 485-493).  The JS expression (graph.edges.get(node)!.get(neighbor) || 1)
turns a missing or zero weight into 1. -/
def neighborCommunityWeights (g : SimpleGraph') (comm : JMap String ℕ)
    (node : String) : JMap ℕ ℚ :=
  (getNeighbors g node).foldl (fun nc neighbor =>
    let neighborCommunity := (jget comm neighbor).getD 0
    let w0 := (jget ((jget g.edges node).getD []) neighbor).getD 0
    let weight := if w0 = 0 then 1 else w0
    jset nc neighborCommunity ((jget nc neighborCommunity).getD 0 + weight)) []

/-- The best-community selection loop (detectCommunities, lines 495-507). -/
def bestMove (nc : JMap ℕ ℚ) (currentCommunity : ℕ) : ℕ × ℚ :=
  nc.foldl (fun best p =>
    if p.1 ≠ currentCommunity then
      let gain := p.2 - ((jget nc currentCommunity).getD 0)
      if gain > best.2 then (p.1, gain) else best
    else best) (currentCommunity, 0)

/-- One node of the inner for loop of detectCommunities; the Bool is the
improved flag. -/
def louvainNodeStep (g : SimpleGraph') (p : JMap String ℕ × Bool) (node : String) :
    JMap String ℕ × Bool :=
  let currentCommunity := (jget p.1 node).getD 0
  let nc := neighborCommunityWeights g p.1 node
  let best := bestMove nc currentCommunity
  if best.1 ≠ currentCommunity ∧ best.2 > 0 then (jset p.1 node best.1, true)
  else p

/-- One full pass over all nodes (one iteration of the while loop). -/
def louvainPass (g : SimpleGraph') (comm : JMap String ℕ) : JMap String ℕ × Bool :=
  g.nodes.foldl (louvainNodeStep g) (comm, false)

/-- The while loop of detectCommunities: up to maxIterations passes, stopping
as soon as a pass makes no move. -/
def louvainLoop (g : SimpleGraph') : ℕ → JMap String ℕ → JMap String ℕ
  | 0, comm => comm
  | fuel + 1, comm =>
    let p := louvainPass g comm
    if p.2 then louvainLoop g fuel p.1 else p.1

/-- renumberCommunities from communities.ts: map the surviving community ids
onto a contiguous range starting at 0, in first-appearance order. -/
def renumberCommunities (communities : JMap String ℕ) : JMap String ℕ :=
  let uniqueCommunities := jsDedup (jvals communities)
  let communityMap := (uniqueCommunities.foldl
      (fun (p : JMap ℕ ℕ × ℕ) oldId => (jset p.1 oldId p.2, p.2 + 1)) ([], 0)).1
  communities.foldl (fun result q => jset result q.1 ((jget communityMap q.2).getD 0)) []

/-- detectCommunities from communities.ts: greedy local-move modularity
heuristic with an iteration cap of 100, then renumbering.  Empty graphs give
the empty map, single-node graphs map the node to community 0. -/
def detectCommunities (g : SimpleGraph') : JMap String ℕ :=
  if g.nodes.length = 0 then []
  else if g.nodes.length = 1 then [(g.nodes.headD "", 0)]
  else renumberCommunities (louvainLoop g 100 (louvainInit g.nodes))

/-- getCommunitiesMap from communities.ts: group node ids by community id. -/
def getCommunitiesMap (communities : JMap String ℕ) : JMap ℕ (List String) :=
  communities.foldl (fun result p =>
    jset result p.2 (((jget result p.2).getD []) ++ [p.1])) []

/-- The count of linked pairs among a list of neighbors: the nested i < j loop
of averageClusteringCoefficient (communities.ts lines 611-618). -/
def countNeighborLinks (g : SimpleGraph') : List String → ℕ
  | [] => 0
  | a :: rest =>
    (rest.filter (fun b => jhas ((jget g.edges a).getD []) b)).length +
      countNeighborLinks g rest

/-- averageClusteringCoefficient from communities.ts: nodes with fewer than 2
neighbors are skipped in the accumulation, and the total is divided by the
number of ALL nodes in the graph. -/
def averageClusteringCoefficient (g : SimpleGraph') : ℚ :=
  if g.nodes.length = 0 then 0
  else
    let totalCoeff := g.nodes.foldl (fun acc node =>
      let neighbors := getNeighbors g node
      let k := neighbors.length
      if k < 2 then acc
      else
        acc + (countNeighborLinks g neighbors : ℚ) / (((k : ℚ) * ((k : ℚ) - 1)) / 2)) 0
    totalCoeff / (g.nodes.length : ℚ)

/-- The local clustering coefficient of one node: links among its neighbors
over possible neighbor pairs. -/
def localClusteringCoefficient (g : SimpleGraph') (node : String) : ℚ :=
  let neighbors := getNeighbors g node
  let k := neighbors.length
  (countNeighborLinks g neighbors : ℚ) / (((k : ℚ) * ((k : ℚ) - 1)) / 2)

/-- The averaging rule exactly as the specification claim words it: mean over
nodes of degree at least 2 only, excluding low-degree nodes from numerator
AND denominator.  Kept for comparison with the source implementation. -/
def claimedAverageClusteringCoefficient (g : SimpleGraph') : ℚ :=
  let qualifying := g.nodes.filter (fun n => 2 ≤ (getNeighbors g n).length)
  ((qualifying.map (localClusteringCoefficient g)).sum) / (qualifying.length : ℚ)

/-! ## Gap Detector (src/graph/gaps.ts) -/

structure BridgeCandidateInfo where
  entityId : String
  fromCluster : ℕ
  potentialConnections : List String
  expectedImpact : ℚ
  deriving DecidableEq

structure StructuralGapInfo where
  cluster1 : ℕ
  cluster2 : ℕ
  distance : ℚ
  cluster1Entities : List String
  cluster2Entities : List String
  bridgeCandidates : List BridgeCandidateInfo
  deriving DecidableEq

/-- Stable insertion into a descending-by-key list: the new element jumps
ahead only of strictly smaller keys, so equal keys keep their first-come
order, exactly like the stable Array.prototype.sort with a descending
numeric comparator. -/
def insertDescBy {α : Type} (f : α → ℚ) (x : α) : List α → List α
  | [] => [x]
  | d :: rest => if f x > f d then x :: d :: rest else d :: insertDescBy f x rest

/-- Stable sort descending by a rational key, modeling
list.sort((a, b) => key(b) - key(a)) on a JS array. -/
def sortDescBy {α : Type} (f : α → ℚ) (l : List α) : List α :=
  l.foldl (fun acc x => insertDescBy f x acc) []

/-- interClusterDistance from gaps.ts: 1 minus the inter-cluster edge weight
normalized by (cluster-size product) x (largest edge weight seen from
cluster-1 rows, at least 1). -/
def interClusterDistance (g : SimpleGraph') (c1 c2 : ℕ)
    (communities : JMap String ℕ) : ℚ :=
  let nodeCounts := communities.foldl
    (fun (p : ℕ × ℕ) q => (if q.2 = c1 then p.1 + 1 else p.1,
                           if q.2 = c2 then p.2 + 1 else p.2)) (0, 0)
  let scan := g.edges.foldl
    (fun (p : ℚ × ℚ) row =>
      if jget communities row.1 = some c1 then
        row.2.foldl (fun (p2 : ℚ × ℚ) e =>
          let p3 : ℚ × ℚ := if jget communities e.1 = some c2 then (p2.1 + e.2, p2.2) else p2
          if e.2 > p3.2 then (p3.1, e.2) else p3) p
      else p) (0, 1)
  let maxEdges := nodeCounts.1 * nodeCounts.2
  if maxEdges = 0 then 1
  else
    let maxPossibleWeight : ℚ := (maxEdges : ℚ) * scan.2
    if maxPossibleWeight = 0 then 1
    else 1 - min 1 (scan.1 / maxPossibleWeight)

/-- One direction of findBridgeCandidates (gaps.ts lines 113-132 and the
symmetric 134-150): the nodes of the from-cluster with zero direct neighbors
in the to-cluster, with impact degree x (cluster size - 0) / max(size, 1). -/
def candidatesFrom (g : SimpleGraph') (fromC toC : ℕ) (communities : JMap String ℕ)
    (fromEntities toEntities : List String) : List BridgeCandidateInfo :=
  fromEntities.filterMap (fun node =>
    let toNeighbors := (getNeighbors g node).filter
      (fun nb => jget communities nb = some toC)
    if toNeighbors.length = 0 then
      some { entityId := node
             fromCluster := fromC
             potentialConnections := toEntities.take 5
             expectedImpact := (getDegree g node : ℚ) *
               ((toEntities.length : ℚ) - (toNeighbors.length : ℚ)) /
               max (toEntities.length : ℚ) 1 }
    else none)

/-- findBridgeCandidates from gaps.ts: candidates from both directions are
collected into ONE list, sorted by expected impact descending, and the top 5
of the combined list are returned. -/
def findBridgeCandidates (g : SimpleGraph') (c1 c2 : ℕ) (communities : JMap String ℕ)
    (clusterNodes : JMap ℕ (List String)) : List BridgeCandidateInfo :=
  let c1Entities := (jget clusterNodes c1).getD []
  let c2Entities := (jget clusterNodes c2).getD []
  (sortDescBy (fun c => c.expectedImpact)
    (candidatesFrom g c1 c2 communities c1Entities c2Entities ++
     candidatesFrom g c2 c1 communities c2Entities c1Entities)).take 5

/-- The i < j iteration over cluster pairs in detectStructuralGaps. -/
def clusterPairs : List ℕ → List (ℕ × ℕ)
  | [] => []
  | c :: rest => rest.map (fun d => (c, d)) ++ clusterPairs rest

/-- detectStructuralGaps from gaps.ts: report cluster pairs whose distance
exceeds the threshold, sorted by distance descending, truncated to maxGaps. -/
def detectStructuralGaps (g : SimpleGraph') (communities : JMap String ℕ)
    (minDistance : ℚ) (maxGaps : ℕ) : List StructuralGapInfo :=
  let clusterNodes := getCommunitiesMap communities
  let gaps := (clusterPairs (jkeys clusterNodes)).filterMap (fun pr =>
    let distance := interClusterDistance g pr.1 pr.2 communities
    if distance > minDistance then
      some { cluster1 := pr.1
             cluster2 := pr.2
             distance := distance
             cluster1Entities := (jget clusterNodes pr.1).getD []
             cluster2Entities := (jget clusterNodes pr.2).getD []
             bridgeCandidates := findBridgeCandidates g pr.1 pr.2 communities clusterNodes }
    else none)
  (sortDescBy (fun gap => gap.distance) gaps).take maxGaps

/-- The bridge-candidate rule exactly as the specification claim words it:
top 5 PER DIRECTION, then the two lists merged.  Kept for comparison with
the source implementation. -/
def claimedBridgeCandidates (g : SimpleGraph') (c1 c2 : ℕ) (communities : JMap String ℕ)
    (clusterNodes : JMap ℕ (List String)) : List BridgeCandidateInfo :=
  let c1Entities := (jget clusterNodes c1).getD []
  let c2Entities := (jget clusterNodes c2).getD []
  (sortDescBy (fun c => c.expectedImpact)
    (candidatesFrom g c1 c2 communities c1Entities c2Entities)).take 5 ++
  (sortDescBy (fun c => c.expectedImpact)
    (candidatesFrom g c2 c1 communities c2Entities c1Entities)).take 5

/-! ## Ensemble Merger (src/extraction/ensemble.ts)

JS strings are Lean strings; toLowerCase, includes and the Levenshtein table
work on the character lists (ASCII inputs; String.length counts characters,
matching the JS UTF-16 length on the Basic Multilingual Plane). -/

inductive EntityType
  | Person | Organization | Place | Product | Event | Concept | Technology
  | CreativeWork | MedicalCondition | Drug | Unknown
  deriving DecidableEq

/-- Of a Mention, only the startPosition field takes part in the ensemble
merging (deduplication of merged mention lists); it is optional because
NuExtract mentions may carry none. -/
structure Mention' where
  startPosition : Option ℤ
  deriving DecidableEq

structure EntityWithProvenance where
  id : String
  name : String
  type : EntityType
  confidence : ℚ
  mentions : List Mention'
  deriving DecidableEq

inductive AgreementLevel
  | both | textrazor_only | nuextract_only
  deriving DecidableEq

inductive SourceTag
  | textrazor | nuextract
  deriving DecidableEq

structure EnsembleEntity where
  id : String
  name : String
  type : EntityType
  confidence : ℚ
  mentions : List Mention'
  extractorsTextrazor : Bool
  extractorsNuextract : Bool
  ensembleConfidence : ℚ
  agreementLevel : AgreementLevel
  deriving DecidableEq

structure EnsembleOptions where
  nameMatchThreshold : ℚ
  agreementBoost : ℚ
  textrazorPenalty : ℚ
  nuextractPenalty : ℚ
  deriving DecidableEq

/-- The constructor defaults of EnsembleAggregator. -/
def defaultEnsembleOptions : EnsembleOptions :=
  { nameMatchThreshold := 85 / 100
    agreementBoost := 12 / 10
    textrazorPenalty := 9 / 10
    nuextractPenalty := 85 / 100 }

structure EnsembleStats where
  textrazorCount : ℕ
  nuextractCount : ℕ
  mergedCount : ℕ
  bothAgreed : ℕ
  textrazorOnly : ℕ
  nuextractOnly : ℕ
  deriving DecidableEq

/-- String.prototype.toLowerCase for the ASCII range. -/
def jsToLower (s : String) : String := String.mk (s.toList.map Char.toLower)

/-- Whether the first list starts the second one. -/
def charsLeads : List Char → List Char → Bool
  | [], _ => true
  | _ :: _, [] => false
  | a :: as, b :: bs => a = b && charsLeads as bs

/-- Whether the needle occurs contiguously inside the hay. -/
def charsContains (needle : List Char) : List Char → Bool
  | [] => charsLeads needle []
  | c :: t => charsLeads needle (c :: t) || charsContains needle t

/-- JS hay.includes(needle). -/
def jsIncludes (hay needle : String) : Bool :=
  charsContains needle.toList hay.toList

/-- One row of the Levenshtein dynamic program (levenshteinDistance in
ensemble.ts): walking the previous row with the diagonal, upper and left
values.  dp entry at (i, j): if the chars agree take dp(i-1, j-1), else
1 + min(dp(i-1, j), dp(i, j-1), dp(i-1, j-1)). -/
def levRowAux (a : Char) : List Char → List ℕ → ℕ → List ℕ
  | c :: cs, d :: u :: rest, left =>
    let cur := if a = c then d else 1 + min u (min left d)
    cur :: levRowAux a cs (u :: rest) cur
  | _, _, _ => []

/-- levenshteinDistance from ensemble.ts: row-by-row dynamic program.  Row 0
is 0..n; row i starts with i and continues per levRowAux; the distance is the
last entry of the last row. -/
def levenshteinDistance (s1 s2 : String) : ℕ :=
  let final := (s1.toList.foldl
    (fun (p : List ℕ × ℕ) a => ((p.2 + 1) :: levRowAux a s2.toList p.1 (p.2 + 1), p.2 + 1))
    (List.range (s2.toList.length + 1), 0)).1
  final.getLast?.getD 0

/-- stringSimilarity from ensemble.ts: (longer - editDistance) / longer. -/
def stringSimilarity (s1 s2 : String) : ℚ :=
  let longer := if s1.length > s2.length then s1 else s2
  let shorter := if s1.length > s2.length then s2 else s1
  if longer.length = 0 then 1
  else ((longer.length : ℚ) - (levenshteinDistance longer shorter : ℚ)) / (longer.length : ℚ)

/-- typesCompatible from ensemble.ts: exact equality, or overlap of the
hard-coded compatibility groups; types missing from the table (such as
MedicalCondition and Drug) fall back to their singleton group. -/
def typeGroups : EntityType → Option (List EntityType)
  | .Person => some [.Person]
  | .Organization => some [.Organization]
  | .Place => some [.Place]
  | .Product => some [.Product]
  | .Event => some [.Event]
  | .Technology => some [.Technology, .Concept]
  | .Concept => some [.Concept, .Technology]
  | .CreativeWork => some [.CreativeWork]
  | .Unknown => some [.Unknown, .Concept]
  | _ => none

def typesCompatible (t1 t2 : EntityType) : Bool :=
  if t1 = t2 then true
  else
    let group1 := (typeGroups t1).getD [t1]
    let group2 := (typeGroups t2).getD [t2]
    group1.any (fun t => decide (t ∈ group2))

/-- findMatch from ensemble.ts: first exact case-insensitive name equality,
then fuzzy similarity at least the threshold with compatible types, then
substring containment (the CONTAINED name must be longer than 3 characters)
with compatible types; the first candidate that fires wins. -/
def findMatch (opts : EnsembleOptions) (target : EntityWithProvenance) :
    List EntityWithProvenance → Option EntityWithProvenance
  | [] => none
  | candidate :: rest =>
    let targetName := jsToLower target.name
    let candidateName := jsToLower candidate.name
    if targetName = candidateName then some candidate
    else if stringSimilarity targetName candidateName ≥ opts.nameMatchThreshold ∧
        typesCompatible target.type candidate.type then some candidate
    else if ((targetName.length > 3 ∧ jsIncludes candidateName targetName) ∨
        (candidateName.length > 3 ∧ jsIncludes targetName candidateName)) ∧
        typesCompatible target.type candidate.type then some candidate
    else findMatch opts target rest

/-- createEnsembleEntity from ensemble.ts: TextRazor identity, union of
mentions deduplicated by start position, boosted capped confidence,
agreement level both. -/
def createEnsembleEntity (opts : EnsembleOptions)
    (textRazor nuExtract : EntityWithProvenance) : EnsembleEntity :=
  let existingPositions := textRazor.mentions.map (fun m => m.startPosition)
  let allMentions := textRazor.mentions ++ nuExtract.mentions.filter
    (fun m => m.startPosition = none ∨ m.startPosition ∉ existingPositions)
  let baseConfidence := max textRazor.confidence nuExtract.confidence
  let ensembleConfidence := min 1 (baseConfidence * opts.agreementBoost)
  { id := textRazor.id
    name := textRazor.name
    type := textRazor.type
    confidence := ensembleConfidence
    mentions := allMentions
    extractorsTextrazor := true
    extractorsNuextract := true
    ensembleConfidence := ensembleConfidence
    agreementLevel := .both }

/-- createSingleSourceEntity from ensemble.ts: per-source confidence
penalty. -/
def createSingleSourceEntity (opts : EnsembleOptions) (entity : EntityWithProvenance)
    (source : SourceTag) : EnsembleEntity :=
  let confidenceMultiplier :=
    if source = SourceTag.textrazor then opts.textrazorPenalty else opts.nuextractPenalty
  let ensembleConfidence := entity.confidence * confidenceMultiplier
  { id := entity.id
    name := entity.name
    type := entity.type
    confidence := ensembleConfidence
    mentions := entity.mentions
    extractorsTextrazor := decide (source = SourceTag.textrazor)
    extractorsNuextract := decide (source = SourceTag.nuextract)
    ensembleConfidence := ensembleConfidence
    agreementLevel := if source = SourceTag.textrazor then .textrazor_only else .nuextract_only }

/-- The first loop of EnsembleAggregator.merge: process TextRazor entities,
matching each against the FULL NuExtract list (findMatch does not consult
the matched set), and record matched NuExtract ids. -/
def mergePhase1 (opts : EnsembleOptions) (nuExtractEntities : List EntityWithProvenance)
    (textRazorEntities : List EntityWithProvenance) :
    List EnsembleEntity × List String :=
  textRazorEntities.foldl (fun (p : List EnsembleEntity × List String) trEntity =>
    match findMatch opts trEntity nuExtractEntities with
    | some nuMatch => (p.1 ++ [createEnsembleEntity opts trEntity nuMatch], jadd p.2 nuMatch.id)
    | none => (p.1 ++ [createSingleSourceEntity opts trEntity SourceTag.textrazor], p.2))
    ([], [])

/-- EnsembleAggregator.merge from ensemble.ts. -/
def merge (opts : EnsembleOptions)
    (textRazorEntities nuExtractEntities : List EntityWithProvenance) :
    List EnsembleEntity × EnsembleStats :=
  let phase1 := mergePhase1 opts nuExtractEntities textRazorEntities
  let result := phase1.1 ++
    (nuExtractEntities.filter (fun nu => nu.id ∉ phase1.2)).map
      (fun nu => createSingleSourceEntity opts nu SourceTag.nuextract)
  let stats : EnsembleStats :=
    { textrazorCount := textRazorEntities.length
      nuextractCount := nuExtractEntities.length
      mergedCount := result.length
      bothAgreed := (result.filter (fun e => e.agreementLevel = AgreementLevel.both)).length
      textrazorOnly := (result.filter (fun e => e.agreementLevel = AgreementLevel.textrazor_only)).length
      nuextractOnly := (result.filter (fun e => e.agreementLevel = AgreementLevel.nuextract_only)).length }
  (result, stats)

/-! ## Statistical Reweighter (pmi.ts)

JS floating-point arithmetic with Math.log2 is modeled over the reals with
Real.logb 2; these definitions are therefore noncomputable, and the claims
about them are proved structurally. -/

/-- Lexicographic UTF-16 code order used by the default Array sort
comparator on strings. -/
def charListLt : List Char → List Char → Bool
  | [], [] => false
  | [], _ :: _ => true
  | _ :: _, [] => false
  | a :: as, b :: bs =>
    if a.toNat < b.toNat then true
    else if b.toNat < a.toNat then false
    else charListLt as bs

def jsLtStr (a b : String) : Bool := charListLt a.toList b.toList

structure EntityCounts where
  total : ℕ
  entityCounts : JMap String ℕ
  pairCounts : JMap String ℕ

structure PMIOptions' where
  smoothing : ℝ
  minFrequency : ℕ

/-- pairKey from pmi.ts: the two ids sorted and joined with a single bar. -/
def pairKey (a b : String) : String :=
  if jsLtStr b a then b ++ "|" ++ a else a ++ "|" ++ b

open Classical in
/-- PMICalculator.pmi: Laplace-smoothed log2(P(pair) / (P(a) P(b))), zero for
pairs below the minimum co-occurrence count. -/
noncomputable def pmi (opts : PMIOptions') (entityA entityB : String)
    (counts : EntityCounts) : ℝ :=
  let countA := (jget counts.entityCounts entityA).getD 0
  let countB := (jget counts.entityCounts entityB).getD 0
  let countAB := (jget counts.pairCounts (pairKey entityA entityB)).getD 0
  if countAB < opts.minFrequency then 0
  else
    let vocabSize := counts.entityCounts.length
    let pA := ((countA : ℝ) + opts.smoothing) /
      ((counts.total : ℝ) + opts.smoothing * (vocabSize : ℝ))
    let pB := ((countB : ℝ) + opts.smoothing) /
      ((counts.total : ℝ) + opts.smoothing * (vocabSize : ℝ))
    let pAB := ((countAB : ℝ) + opts.smoothing) / ((counts.total : ℝ) + opts.smoothing)
    Real.logb 2 (pAB / (pA * pB))

open Classical in
/-- PMICalculator.npmi: pmi / -log2(P(pair)), clamped to the interval
from -1 to 1, with the zero guards of the source. -/
noncomputable def npmi (opts : PMIOptions') (entityA entityB : String)
    (counts : EntityCounts) : ℝ :=
  let pmiValue := pmi opts entityA entityB counts
  if pmiValue = 0 then 0
  else
    let countAB := (jget counts.pairCounts (pairKey entityA entityB)).getD 0
    let pAB := ((countAB : ℝ) + opts.smoothing) / ((counts.total : ℝ) + opts.smoothing)
    let denominator := -Real.logb 2 pAB
    if denominator = 0 then 0
    else max (-1) (min 1 (pmiValue / denominator))

structure PMIEdge where
  source : String
  target : String
  weight : ℝ

structure PMIResult where
  source : String
  target : String
  weight : ℝ
  pmi : ℝ
  npmi : Option ℝ
  cooccurrenceCount : ℕ

open Classical in
/-- PMICalculator.applyToEdges: per edge compute PMI or NPMI, drop the edge
when filterNegative is set and the value is negative, and otherwise weight it
as original x (1 + max(0, value)) when combineWithFrequency is set, or
max(0, value) when not. -/
noncomputable def applyToEdges (opts : PMIOptions') (edges : List PMIEdge)
    (counts : EntityCounts) (useNPMI combineWithFrequency filterNegative : Bool) :
    List PMIResult :=
  edges.filterMap (fun edge =>
    let pmiValue := if useNPMI then npmi opts edge.source edge.target counts
                    else pmi opts edge.source edge.target counts
    if filterNegative ∧ pmiValue < 0 then none
    else
      let cooccurrenceCount :=
        (jget counts.pairCounts (pairKey edge.source edge.target)).getD 0
      let finalWeight := if combineWithFrequency then edge.weight * (1 + max 0 pmiValue)
                         else max 0 pmiValue
      some { source := edge.source
             target := edge.target
             weight := finalWeight
             pmi := pmiValue
             npmi := if useNPMI then some pmiValue else none
             cooccurrenceCount := cooccurrenceCount })

/-! ## Proximity Builder (src/graph/cooccurrence.ts)

Character positions are rationals (JS numbers); the tokenizer and the
sentence splitter work on character lists, with String.length and positions
counted in characters (equal to the JS UTF-16 counts on the BMP). -/

structure Mention2 where
  startPosition : ℚ
  endPosition : ℚ
  deriving DecidableEq

structure Entity2 where
  id : String
  name : String
  mentions : List Mention2
  deriving DecidableEq

structure CooccurrenceOptions' where
  windowSize : ℚ
  minWeight : ℚ
  normalize : Bool
  usePositions : Bool
  deriving DecidableEq

/-- The option defaults of buildCooccurrenceGraph. -/
def defaultCooccurrenceOptions : CooccurrenceOptions' :=
  { windowSize := 5, minWeight := 2, normalize := false, usePositions := true }

structure MentionWithEntity where
  entityId : String
  entityName : String
  startPosition : ℚ
  endPosition : ℚ
  deriving DecidableEq

/-- flattenMentions from cooccurrence.ts. -/
def flattenMentions (entities : List Entity2) : List MentionWithEntity :=
  entities.foldl (fun acc entity =>
    acc ++ entity.mentions.map (fun m =>
      { entityId := entity.id, entityName := entity.name,
        startPosition := m.startPosition, endPosition := m.endPosition })) []

/-- Stable insertion into an ascending-by-key list, modeling the stable
Array.prototype.sort with the comparator (a, b) => key(a) - key(b). -/
def insertAscBy {α : Type} (f : α → ℚ) (x : α) : List α → List α
  | [] => [x]
  | d :: rest => if f x < f d then x :: d :: rest else d :: insertAscBy f x rest

def sortAscBy {α : Type} (f : α → ℚ) (l : List α) : List α :=
  l.foldl (fun acc x => insertAscBy f x acc) []

/-- The canonical edge key of calculateCooccurrences:
[id1, id2].sort().join('|||'). -/
def tripleBarKey (a b : String) : String :=
  if jsLtStr b a then b ++ "|||" ++ a else a ++ "|||" ++ b

/-- One step of incrementing a co-occurrence tally. -/
def bumpKey (m : JMap String ℚ) (k : String) : JMap String ℚ :=
  jset m k ((jget m k).getD 0 + 1)

/-- The inner j loop of the character-position branch of
calculateCooccurrences: break once the distance exceeds the window, skip
overlapping mentions and same-entity pairs, else count. -/
def cooccInnerPos (windowChars : ℚ) (mi : MentionWithEntity) :
    List MentionWithEntity → JMap String ℚ → JMap String ℚ
  | [], acc => acc
  | mj :: rest, acc =>
    let distance := mj.startPosition - mi.endPosition
    if distance > windowChars then acc
    else if distance < 0 then cooccInnerPos windowChars mi rest acc
    else if mi.entityId = mj.entityId then cooccInnerPos windowChars mi rest acc
    else cooccInnerPos windowChars mi rest (bumpKey acc (tripleBarKey mi.entityId mj.entityId))

/-- The outer i loop of the character-position branch. -/
def cooccOuterPos (windowChars : ℚ) : List MentionWithEntity → JMap String ℚ → JMap String ℚ
  | [], acc => acc
  | mi :: rest, acc => cooccOuterPos windowChars rest (cooccInnerPos windowChars mi rest acc)

/-- One character class of the JS regex \w. -/
def isWordChar (c : Char) : Bool := c.isAlphanum || c = '_'

structure WordWithPosition where
  word : List Char
  startPosition : ℕ
  endPosition : ℕ
  index : ℕ
  deriving DecidableEq

/-- tokenizeWithPositions from cooccurrence.ts: the regex \b\w+\b matched
repeatedly, which is exactly the maximal runs of word characters with their
character offsets and a running index. -/
def tokenizeGo : List Char → ℕ → ℕ → List WordWithPosition
  | [], _, _ => []
  | c :: rest, pos, idx =>
    if isWordChar c then
      let run := (c :: rest).takeWhile isWordChar
      { word := run, startPosition := pos, endPosition := pos + run.length, index := idx }
        :: tokenizeGo ((c :: rest).dropWhile isWordChar) (pos + run.length) (idx + 1)
    else tokenizeGo rest (pos + 1) idx
  termination_by s _ _ => s.length
  decreasing_by
    all_goals simp_wf
    · rename_i hw
      have h1 : (List.dropWhile isWordChar rest).length ≤ rest.length :=
        List.Sublist.length_le (List.dropWhile_sublist _)
      simp [List.dropWhile, hw]
      omega

def tokenizeWithPositions (text : String) : List WordWithPosition :=
  tokenizeGo text.toList 0 0

/-- mapMentionsToWords from cooccurrence.ts, for one mention: the first word
whose span contains the mention start. -/
def findWordFor (m : MentionWithEntity) : List WordWithPosition → Option ℕ
  | [] => none
  | w :: rest =>
    if (w.startPosition : ℚ) ≤ m.startPosition ∧ m.startPosition ≤ (w.endPosition : ℚ) then
      some w.index
    else findWordFor m rest

/-- The inner j loop of the word-position branch, for an i mention that has a
word index. -/
def cooccInnerWord (windowSize : ℚ) (mi : MentionWithEntity) (w1 : ℕ) :
    List (MentionWithEntity × Option ℕ) → JMap String ℚ → JMap String ℚ
  | [], acc => acc
  | pj :: rest, acc =>
    match pj.2 with
    | none => cooccInnerWord windowSize mi w1 rest acc
    | some w2 =>
      let wordDistance : ℚ := ((((w2 : ℤ) - (w1 : ℤ)).natAbs : ℕ) : ℚ)
      if wordDistance > windowSize then cooccInnerWord windowSize mi w1 rest acc
      else if mi.entityId = pj.1.entityId then cooccInnerWord windowSize mi w1 rest acc
      else cooccInnerWord windowSize mi w1 rest
        (bumpKey acc (tripleBarKey mi.entityId pj.1.entityId))

/-- The outer i loop of the word-position branch. -/
def cooccOuterWord (windowSize : ℚ) :
    List (MentionWithEntity × Option ℕ) → JMap String ℚ → JMap String ℚ
  | [], acc => acc
  | pi :: rest, acc =>
    match pi.2 with
    | none => cooccOuterWord windowSize rest acc
    | some w1 =>
      cooccOuterWord windowSize rest (cooccInnerWord windowSize pi.1 w1 rest acc)

/-- calculateCooccurrences from cooccurrence.ts. -/
def calculateCooccurrences (mentions : List MentionWithEntity) (sourceText : String)
    (windowSize : ℚ) (usePositions : Bool) : JMap String ℚ :=
  if usePositions then
    cooccOuterPos (windowSize * 6) mentions []
  else
    let words := tokenizeWithPositions sourceText
    cooccOuterWord windowSize (mentions.map (fun m => (m, findWordFor m words))) []

/-- JS key.split('|||') at the character level: leftmost non-overlapping
occurrences of the three-bar separator. -/
def splitBarsGo : List Char → List Char → List (List Char)
  | [], cur => [cur.reverse]
  | c :: rest, cur =>
    if c = '|' ∧ rest.take 2 = ['|', '|'] then cur.reverse :: splitBarsGo (rest.drop 2) []
    else splitBarsGo rest (c :: cur)
  termination_by l _ => l.length
  decreasing_by
    all_goals simp_wf
    all_goals omega

def splitTripleBar (s : String) : List String :=
  (splitBarsGo s.toList []).map (fun l => String.mk l)

/-- The edge-adding loop shared by buildCooccurrenceGraph (lines 47-52) and
buildSentenceCooccurrenceGraph (lines 273-278): keep tallies at or above
minWeight, split the key back into the two ids and addEdge. -/
def addCooccurrenceEdges (cooccurrences : JMap String ℚ) (minWeight : ℚ)
    (g : SimpleGraph') : SimpleGraph' :=
  cooccurrences.foldl (fun g p =>
    if p.2 ≥ minWeight then
      addEdge g ((splitTripleBar p.1).headD "") (((splitTripleBar p.1).drop 1).headD "") p.2
    else g) g

/-- normalizeWeights from cooccurrence.ts: divide every stored weight by the
largest stored weight, unless that maximum is 0. -/
def normalizeWeights (g : SimpleGraph') : SimpleGraph' :=
  let maxWeight := g.edges.foldl (fun mw row => row.2.foldl (fun mw e => max mw e.2) mw) 0
  if maxWeight = 0 then g
  else { g with edges := g.edges.map (fun row =>
    (row.1, row.2.map (fun e => (e.1, e.2 / maxWeight)))) }

/-- buildCooccurrenceGraph from cooccurrence.ts. -/
def buildCooccurrenceGraph (entities : List Entity2) (sourceText : String)
    (options : CooccurrenceOptions') : SimpleGraph' :=
  let mentions := sortAscBy (fun m => m.startPosition) (flattenMentions entities)
  let cooccurrences :=
    calculateCooccurrences mentions sourceText options.windowSize options.usePositions
  let g := addCooccurrenceEdges cooccurrences options.minWeight createGraph
  if options.normalize then normalizeWeights g else g

/-- The character class of the JS regex \s. -/
def isJsWhitespace (c : Char) : Bool :=
  c = ' ' || c = '\t' || c = '\n' || c.toNat = 13 || c.toNat = 11 || c.toNat = 12 ||
  c.toNat = 0xa0 || c.toNat = 0x1680 || (0x2000 ≤ c.toNat && c.toNat ≤ 0x200a) ||
  c.toNat = 0x2028 || c.toNat = 0x2029 || c.toNat = 0x202f || c.toNat = 0x205f ||
  c.toNat = 0x3000 || c.toNat = 0xfeff

def isSentencePunct (c : Char) : Bool := c = '.' || c = '!' || c = '?'

/-- JS text.split(/[.!?]+\s+/) at the character level: a separator is a
maximal run of sentence punctuation followed by at least one whitespace
character (for this pattern greedy matching needs no backtracking). -/
def splitSentGo : List Char → List Char → List (List Char)
  | [], cur => [cur.reverse]
  | c :: rest, cur =>
    if isSentencePunct c then
      let afterP := (c :: rest).dropWhile isSentencePunct
      let ws := afterP.takeWhile isJsWhitespace
      if ws.isEmpty then splitSentGo rest (c :: cur)
      else cur.reverse :: splitSentGo (afterP.dropWhile isJsWhitespace) []
    else splitSentGo rest (c :: cur)
  termination_by s _ => s.length
  decreasing_by
    all_goals simp_wf
    all_goals first
      | omega
      | (rename_i hp
         have h1 : (List.dropWhile isJsWhitespace
             (List.dropWhile isSentencePunct rest)).length ≤ rest.length :=
           le_trans (List.Sublist.length_le (List.dropWhile_sublist _))
             (List.Sublist.length_le (List.dropWhile_sublist _))
         simp [List.dropWhile, hp]
         omega)

def jsSplitSentences (s : String) : List String :=
  (splitSentGo s.toList []).map (fun l => String.mk l)

/-- The i < j pair loop over the entities found in one sentence
(buildSentenceCooccurrenceGraph lines 260-267). -/
def sentencePairsInner (e1 : Entity2) : List Entity2 → JMap String ℚ → JMap String ℚ
  | [], cooc => cooc
  | e2 :: rest, cooc =>
    if e1.id = e2.id then sentencePairsInner e1 rest cooc
    else sentencePairsInner e1 rest (bumpKey cooc (tripleBarKey e1.id e2.id))

def sentencePairs : List Entity2 → JMap String ℚ → JMap String ℚ
  | [], cooc => cooc
  | e1 :: rest, cooc => sentencePairs rest (sentencePairsInner e1 rest cooc)

/-- The per-sentence loop of buildSentenceCooccurrenceGraph: entities with a
mention inside the sentence bounds co-occur pairwise; the running character
offset advances by the sentence length plus 2 for the delimiter. -/
def sentenceLoop (entities : List Entity2) :
    List String → ℚ → JMap String ℚ → JMap String ℚ
  | [], _, cooc => cooc
  | sentence :: rest, charOffset, cooc =>
    let sentenceEnd := charOffset + (sentence.length : ℚ)
    let entitiesInSentence := entities.filter (fun e =>
      e.mentions.any (fun m =>
        decide (m.startPosition ≥ charOffset) && decide (m.endPosition ≤ sentenceEnd)))
    sentenceLoop entities rest (sentenceEnd + 2) (sentencePairs entitiesInSentence cooc)

/-- buildSentenceCooccurrenceGraph from cooccurrence.ts. -/
def buildSentenceCooccurrenceGraph (entities : List Entity2) (sourceText : String)
    (options : CooccurrenceOptions') : SimpleGraph' :=
  let sentences := jsSplitSentences sourceText
  let cooccurrences := sentenceLoop entities sentences 0 []
  addCooccurrenceEdges cooccurrences options.minWeight createGraph

/-- The three invariants claimed for the co-occurrence builders. -/
def SymmetricW (g : SimpleGraph') : Prop :=
  ∀ a b : String, getEdgeWeight g a b = getEdgeWeight g b a

def NoSelfLoops (g : SimpleGraph') : Prop :=
  ∀ a : String, hasEdge g a a = false

def NonnegW (g : SimpleGraph') : Prop :=
  ∀ p ∈ g.edges, ∀ q ∈ p.2, (0 : ℚ) ≤ q.2

/-- A string free of the bar character, so that the three-bar edge-key
encoding can be decoded unambiguously. -/
abbrev BarFree (s : String) : Prop := '|' ∉ s.toList

/-- A well-formed co-occurrence key: two distinct bar-free ids joined by the
three-bar separator. -/
def GoodKey (k : String) : Prop :=
  ∃ x y, BarFree x ∧ BarFree y ∧ x ≠ y ∧ k = x ++ "|||" ++ y

/-- The invariant carried through the tally loops: every stored count is
non-negative and every key satisfies Q. -/
def BumpInv (Q : String → Prop) (m : JMap String ℚ) : Prop :=
  ∀ p ∈ m, 0 ≤ p.2 ∧ Q p.1

/-! ## Concrete example graphs used by witnesses and counterexamples -/

/-- An entity with a bar-free id, mentioned twice. -/
def entityX : Entity2 :=
  { id := "x", name := "x",
    mentions := [{ startPosition := 0, endPosition := 1 },
                 { startPosition := 10, endPosition := 11 }] }

/-- An entity whose id contains the three-bar separator used internally for
edge keys, mentioned twice near the mentions of entityX. -/
def entityXbars : Entity2 :=
  { id := "x|||x", name := "xb",
    mentions := [{ startPosition := 2, endPosition := 3 },
                 { startPosition := 12, endPosition := 13 }] }

/-- The 3-node path a - b - c. -/
def pathGraph3 : SimpleGraph' :=
  addEdge (addEdge createGraph "a" "b" 1) "b" "c" 1

/-- A 2-node graph with one edge. -/
def twoNodeGraph : SimpleGraph' :=
  addEdge createGraph "a" "b" 1

/-- A graph with a single isolated node. -/
def singleNodeGraph : SimpleGraph' :=
  addNode createGraph "a"

/-- A triangle a-b-c with a pendant node d attached to a. -/
def triangleWithPendant : SimpleGraph' :=
  addEdge (addEdge (addEdge (addEdge createGraph "a" "b" 1) "b" "c" 1) "a" "c" 1) "a" "d" 1

/-- A 6-node path a1-...-a6 (cluster 0) plus an isolated node b1 (cluster 1),
with no edges between the clusters.  Written as the explicit graph value
(the value that the addEdge chain a1-a2, ..., a5-a6 plus addNode b1 builds). -/
def gapGraph : SimpleGraph' :=
  { nodes := ["a1", "a2", "a3", "a4", "a5", "a6", "b1"]
    edges := [("a1", [("a2", 1)]), ("a2", [("a1", 1), ("a3", 1)]),
              ("a3", [("a2", 1), ("a4", 1)]), ("a4", [("a3", 1), ("a5", 1)]),
              ("a5", [("a4", 1), ("a6", 1)]), ("a6", [("a5", 1)]), ("b1", [])] }

/-- The community assignment for gapGraph: the path is cluster 0, the
isolated node is cluster 1. -/
def gapCommunities : JMap String ℕ :=
  [("a1", 0), ("a2", 0), ("a3", 0), ("a4", 0), ("a5", 0), ("a6", 0), ("b1", 1)]

/-- A TextRazor entity named ML. -/
def entityML : EntityWithProvenance :=
  { id := "tr_ml", name := "ML", type := EntityType.Technology,
    confidence := 9 / 10, mentions := [] }

/-- A NuExtract entity named Machine Learning. -/
def entityMachineLearning : EntityWithProvenance :=
  { id := "nu_machine_learning", name := "Machine Learning",
    type := EntityType.Technology, confidence := 8 / 10, mentions := [] }

/-- Two TextRazor entities with the same name apple. -/
def entityAppleTR1 : EntityWithProvenance :=
  { id := "t1", name := "apple", type := EntityType.Concept,
    confidence := 8 / 10, mentions := [] }

def entityAppleTR2 : EntityWithProvenance :=
  { id := "t2", name := "apple", type := EntityType.Concept,
    confidence := 7 / 10, mentions := [] }

/-- One NuExtract entity named apple. -/
def entityAppleNU : EntityWithProvenance :=
  { id := "n1", name := "apple", type := EntityType.Concept,
    confidence := 6 / 10, mentions := [] }

/-- The single gap that detectStructuralGaps reports on gapGraph. -/
def gapWitness : StructuralGapInfo :=
  { cluster1 := 0
    cluster2 := 1
    distance := 1
    cluster1Entities := ["a1", "a2", "a3", "a4", "a5", "a6"]
    cluster2Entities := ["b1"]
    bridgeCandidates :=
      [{ entityId := "a2", fromCluster := 0, potentialConnections := ["b1"], expectedImpact := 2 },
       { entityId := "a3", fromCluster := 0, potentialConnections := ["b1"], expectedImpact := 2 },
       { entityId := "a4", fromCluster := 0, potentialConnections := ["b1"], expectedImpact := 2 },
       { entityId := "a5", fromCluster := 0, potentialConnections := ["b1"], expectedImpact := 2 },
       { entityId := "a1", fromCluster := 0, potentialConnections := ["b1"], expectedImpact := 1 }] }

/-! # Lemmas and claim theorems -/

theorem jget_jset_self {K V : Type} [DecidableEq K] (m : JMap K V) (k : K) (v : V) :
    jget (jset m k v) k = some v := by
  induction m with
  | nil => simp [jget, jset]
  | cons p rest ih =>
    obtain ⟨k', v'⟩ := p
    by_cases h : k = k'
    · simp [jget, jset, h]
    · simp [jget, jset, h, ih]

theorem jget_jset_other {K V : Type} [DecidableEq K] (m : JMap K V) (k k' : K) (v : V)
    (hne : k' ≠ k) : jget (jset m k v) k' = jget m k' := by
  induction m with
  | nil => simp [jget, jset, hne]
  | cons p rest ih =>
    obtain ⟨k0, v0⟩ := p
    by_cases h : k = k0
    · subst h
      simp [jget, jset, hne]
    · by_cases h' : k' = k0 <;> simp [jget, jset, h, h', ih]

theorem jkeys_jset_mem {K V : Type} [DecidableEq K] {m : JMap K V} {k : K} (v : V)
    (hk : k ∈ jkeys m) : jkeys (jset m k v) = jkeys m := by
  induction m with
  | nil => simp [jkeys] at hk
  | cons p rest ih =>
    obtain ⟨k0, v0⟩ := p
    by_cases h : k = k0
    · simp [jset, h, jkeys]
    · have hk' : k ∈ jkeys rest := by
        rw [jkeys, List.mem_cons] at hk
        exact hk.resolve_left h
      simp [jset, h, jkeys, ih hk']

theorem jkeys_jset_new {K V : Type} [DecidableEq K] {m : JMap K V} {k : K} (v : V)
    (hk : k ∉ jkeys m) : jkeys (jset m k v) = jkeys m ++ [k] := by
  induction m with
  | nil => simp [jkeys, jset]
  | cons p rest ih =>
    obtain ⟨k0, v0⟩ := p
    rw [jkeys, List.mem_cons] at hk
    push_neg at hk
    simp [jset, hk.1, jkeys, ih hk.2]

theorem jget_isSome_of_mem_jkeys {K V : Type} [DecidableEq K] {m : JMap K V} {k : K}
    (hk : k ∈ jkeys m) : (jget m k).isSome := by
  induction m with
  | nil => simp [jkeys] at hk
  | cons p rest ih =>
    obtain ⟨k0, v0⟩ := p
    by_cases h : k = k0
    · simp [jget, h]
    · rw [jkeys, List.mem_cons] at hk
      simp [jget, h, ih (hk.resolve_left h)]

theorem mem_jkeys_of_jget_isSome {K V : Type} [DecidableEq K] {m : JMap K V} {k : K}
    (hk : (jget m k).isSome) : k ∈ jkeys m := by
  induction m with
  | nil => simp [jget] at hk
  | cons p rest ih =>
    obtain ⟨k0, v0⟩ := p
    by_cases h : k = k0
    · simp [jkeys, h]
    · simp [jget, h] at hk
      simp [jkeys, List.mem_cons, ih hk]

theorem valsAre_nil {K V : Type} (P : V → Prop) : ValsAre P ([] : JMap K V) := by
  intro p hp; cases hp

theorem valsAre_jset {K V : Type} [DecidableEq K] {P : V → Prop} {m : JMap K V}
    (hm : ValsAre P m) {k : K} {v : V} (hv : P v) : ValsAre P (jset m k v) := by
  induction m with
  | nil =>
    intro p hp
    simp [jset] at hp
    subst hp; exact hv
  | cons q rest ih =>
    obtain ⟨k0, v0⟩ := q
    have hrest : ValsAre P rest := fun p hp => hm p (List.mem_cons_of_mem _ hp)
    by_cases h : k = k0
    · intro p hp
      simp only [jset, if_pos h] at hp
      rcases List.mem_cons.mp hp with hp | hp
      · subst hp; exact hv
      · exact hrest p hp
    · intro p hp
      simp only [jset, if_neg h] at hp
      rcases List.mem_cons.mp hp with hp | hp
      · subst hp
        exact hm (k0, v0) (List.mem_cons_self _ _)
      · exact ih hrest p hp

theorem valsAre_jget {K V : Type} [DecidableEq K] {P : V → Prop} {m : JMap K V}
    (hm : ValsAre P m) {k : K} {v : V} (h : jget m k = some v) : P v := by
  induction m with
  | nil => simp [jget] at h
  | cons q rest ih =>
    obtain ⟨k0, v0⟩ := q
    by_cases hk : k = k0
    · simp [jget, hk] at h
      subst h
      exact hm (k0, v0) (List.mem_cons_self _ _)
    · simp [jget, hk] at h
      exact ih (fun p hp => hm p (List.mem_cons_of_mem _ hp)) h

theorem valsAre_getD {K : Type} [DecidableEq K] {P : ℚ → Prop} {m : JMap K ℚ}
    (hm : ValsAre P m) (h0 : P 0) (k : K) : P ((jget m k).getD 0) := by
  cases h : jget m k with
  | none => simpa using h0
  | some v => simpa using valsAre_jget hm h

theorem valsAre_initConst {V : Type} {P : V → Prop} (ns : List String) {v : V}
    (hv : P v) : ValsAre P (initConst ns v) := by
  have main : ∀ (l : List String) (m : JMap String V), ValsAre P m →
      ValsAre P (l.foldl (fun m n => jset m n v) m) := by
    intro l
    induction l with
    | nil => intro m hm; exact hm
    | cons n rest ih =>
      intro m hm
      exact ih _ (valsAre_jset hm hv)
  exact main ns [] (valsAre_nil P)

theorem jget_foldl_jset_not_mem {V : Type} {ns : List String} {x : String} (v : V)
    (m : JMap String V) (hx : x ∉ ns) :
    jget (ns.foldl (fun m n => jset m n v) m) x = jget m x := by
  revert hx
  induction ns generalizing m with
  | nil => intro _; rfl
  | cons n rest ih =>
    intro hx
    rw [List.mem_cons] at hx
    push_neg at hx
    rw [List.foldl_cons, ih (jset m n v) hx.2]
    exact jget_jset_other m n x v hx.1

theorem jget_initConst_mem {V : Type} {ns : List String} {x : String} (v : V)
    (hx : x ∈ ns) : jget (initConst ns v) x = some v := by
  have main : ∀ (l : List String) (m : JMap String V), x ∈ l →
      jget (l.foldl (fun m n => jset m n v) m) x = some v := by
    intro l
    induction l with
    | nil => intro m h; cases h
    | cons n rest ih =>
      intro m h
      rw [List.foldl_cons]
      by_cases hr : x ∈ rest
      · exact ih _ hr
      · rcases List.mem_cons.mp h with h | h
        · subst h
          rw [jget_foldl_jset_not_mem v _ hr, jget_jset_self]
        · exact absurd h hr
  exact main ns [] hx

theorem addNode_row_self (g : SimpleGraph') (n : String) :
    jget (addNode g n).edges n = some ((jget g.edges n).getD []) := by
  unfold addNode jhas
  cases h : jget g.edges n with
  | none => simp [h, jget_jset_self]
  | some row => simp [h]

theorem addNode_row_other (g : SimpleGraph') (n n' : String) (hne : n' ≠ n) :
    jget (addNode g n).edges n' = jget g.edges n' := by
  unfold addNode jhas
  cases h : jget g.edges n with
  | none => simp [h, jget_jset_other _ _ _ _ hne]
  | some row => simp [h]

/-- Claim C10: calling addEdge with source = target creates a self-loop whose
stored weight grows by twice the given weight, because the two symmetric
writes hit the same adjacency row; the no-self-loop invariant therefore rests
on the graph-construction entry points, not on addEdge itself. -/
theorem claim_C10_addEdge_self_loop :
    ∀ (g : SimpleGraph') (a : String) (w : ℚ),
      getEdgeWeight (addEdge g a a w) a a = getEdgeWeight g a a + 2 * w ∧
      hasEdge (addEdge g a a w) a a = true := by
  intro g a w
  have hrow1 : jget (addNode (addNode g a) a).edges a
      = some ((jget g.edges a).getD []) := by
    rw [addNode_row_self, addNode_row_self]
    simp
  unfold addEdge getEdgeWeight hasEdge jhas
  simp only [hrow1, Option.getD_some, jget_jset_self]
  constructor
  · ring
  · simp

/-! ## Nonnegativity of the betweenness accumulation -/

theorem sigma_nonneg_visitNeighbor {v w : String} {st : BrandesBFS}
    (h : ValsAre (fun q => 0 ≤ q) st.sigma) :
    ValsAre (fun q => 0 ≤ q) (visitNeighbor v st w).sigma := by
  have hset : ValsAre (fun q => 0 ≤ q)
      (jset st.sigma w ((jget st.sigma w).getD 0 + (jget st.sigma v).getD 0)) :=
    valsAre_jset h (add_nonneg (valsAre_getD h le_rfl w) (valsAre_getD h le_rfl v))
  unfold visitNeighbor
  dsimp only
  by_cases hc : (jget st.distance w).getD (-1) < 0
  · simp only [if_pos hc]
    split
    · split <;> exact hset
    · exact h
  · simp only [if_neg hc]
    split
    · split <;> exact hset
    · exact h

theorem sigma_nonneg_bfsStep (g : SimpleGraph') {st : BrandesBFS}
    (h : ValsAre (fun q => 0 ≤ q) st.sigma) :
    ValsAre (fun q => 0 ≤ q) (bfsStep g st).sigma := by
  unfold bfsStep
  cases hq : st.queue with
  | nil => exact h
  | cons v rest =>
    have main : ∀ (l : List String) (st0 : BrandesBFS),
        ValsAre (fun q => 0 ≤ q) st0.sigma →
        ValsAre (fun q => 0 ≤ q) (l.foldl (visitNeighbor v) st0).sigma := by
      intro l
      induction l with
      | nil => intro st0 h0; exact h0
      | cons w ws ih => intro st0 h0; exact ih _ (sigma_nonneg_visitNeighbor h0)
    exact main _ _ h

theorem sigma_nonneg_bfsLoop (g : SimpleGraph') (fuel : ℕ) {st : BrandesBFS}
    (h : ValsAre (fun q => 0 ≤ q) st.sigma) :
    ValsAre (fun q => 0 ≤ q) (bfsLoop g fuel st).sigma := by
  induction fuel generalizing st with
  | zero => exact h
  | succ n ih =>
    unfold bfsLoop
    cases st.queue with
    | nil => exact h
    | cons v rest => exact ih (sigma_nonneg_bfsStep g h)

theorem accumPred_nonneg {sigma : JMap String ℚ} {w v : String} {st : AccState}
    (hsig : ValsAre (fun q => 0 ≤ q) sigma)
    (hd : ValsAre (fun q => 0 ≤ q) st.delta) (hb : ValsAre (fun q => 0 ≤ q) st.bc) :
    ValsAre (fun q => 0 ≤ q) (accumPred sigma w st v).delta ∧
    ValsAre (fun q => 0 ≤ q) (accumPred sigma w st v).bc := by
  unfold accumPred
  dsimp only
  split
  · rename_i hpos
    refine ⟨valsAre_jset hd (add_nonneg (valsAre_getD hd le_rfl v) ?_), hb⟩
    have hσv : 0 ≤ (jget sigma v).getD 0 := valsAre_getD hsig le_rfl v
    have hδw : 0 ≤ (jget st.delta w).getD 0 := valsAre_getD hd le_rfl w
    have : (0:ℚ) ≤ (jget sigma v).getD 0 / (jget sigma w).getD 0 :=
      div_nonneg hσv (le_of_lt hpos)
    exact mul_nonneg this (by linarith)
  · exact ⟨hd, hb⟩

theorem accumNode_nonneg {source : String} {preds : JMap String (List String)}
    {sigma : JMap String ℚ} {st : AccState} {w : String}
    (hsig : ValsAre (fun q => 0 ≤ q) sigma)
    (hd : ValsAre (fun q => 0 ≤ q) st.delta) (hb : ValsAre (fun q => 0 ≤ q) st.bc) :
    ValsAre (fun q => 0 ≤ q) (accumNode source preds sigma st w).delta ∧
    ValsAre (fun q => 0 ≤ q) (accumNode source preds sigma st w).bc := by
  unfold accumNode
  dsimp only
  have main : ∀ (l : List String) (st0 : AccState),
      ValsAre (fun q => 0 ≤ q) st0.delta → ValsAre (fun q => 0 ≤ q) st0.bc →
      ValsAre (fun q => 0 ≤ q) (l.foldl (accumPred sigma w) st0).delta ∧
      ValsAre (fun q => 0 ≤ q) (l.foldl (accumPred sigma w) st0).bc := by
    intro l
    induction l with
    | nil => intro st0 h0 h1; exact ⟨h0, h1⟩
    | cons v vs ih =>
      intro st0 h0 h1
      obtain ⟨h2, h3⟩ := accumPred_nonneg hsig h0 h1
      exact ih _ h2 h3
  obtain ⟨h1, h2⟩ := main ((jget preds w).getD []) st hd hb
  split
  · exact ⟨h1, valsAre_jset h2 (add_nonneg (valsAre_getD h2 le_rfl w) (valsAre_getD h1 le_rfl w))⟩
  · exact ⟨h1, h2⟩

theorem accumFold_nonneg {source : String} {preds : JMap String (List String)}
    {sigma : JMap String ℚ} (hsig : ValsAre (fun q => 0 ≤ q) sigma) :
    ∀ (l : List String) (st0 : AccState),
      ValsAre (fun q => 0 ≤ q) st0.delta → ValsAre (fun q => 0 ≤ q) st0.bc →
      ValsAre (fun q => 0 ≤ q) (l.foldl (accumNode source preds sigma) st0).delta ∧
      ValsAre (fun q => 0 ≤ q) (l.foldl (accumNode source preds sigma) st0).bc := by
  intro l
  induction l with
  | nil => intro st0 h0 h1; exact ⟨h0, h1⟩
  | cons w ws ih =>
    intro st0 h0 h1
    obtain ⟨h2, h3⟩ := accumNode_nonneg hsig h0 h1
    exact ih _ h2 h3

theorem brandesSource_nonneg (g : SimpleGraph') {bc : JMap String ℚ} (source : String)
    (hb : ValsAre (fun q => 0 ≤ q) bc) :
    ValsAre (fun q => 0 ≤ q) (brandesSource g bc source) := by
  unfold brandesSource
  dsimp only
  have hsig0 : ValsAre (fun q => 0 ≤ q)
      (jset (initConst g.nodes (0 : ℚ)) source 1) :=
    valsAre_jset (valsAre_initConst g.nodes le_rfl) zero_le_one
  exact (accumFold_nonneg (sigma_nonneg_bfsLoop g (bfsFuel g) hsig0) _ _
    (valsAre_initConst g.nodes le_rfl) hb).2

theorem betweennessCentrality_nonneg (g : SimpleGraph') :
    ValsAre (fun q => 0 ≤ q) (betweennessCentrality g) := by
  unfold betweennessCentrality
  dsimp only
  split
  · exact valsAre_initConst g.nodes le_rfl
  · rename_i hge
    push_neg at hge
    have hsum : ValsAre (fun q => 0 ≤ q)
        (g.nodes.foldl (brandesSource g) (initConst g.nodes (0 : ℚ))) := by
      have main : ∀ (l : List String) (bc : JMap String ℚ),
          ValsAre (fun q => 0 ≤ q) bc →
          ValsAre (fun q => 0 ≤ q) (l.foldl (brandesSource g) bc) := by
        intro l
        induction l with
        | nil => intro bc h; exact h
        | cons s rest ih => intro bc h; exact ih _ (brandesSource_nonneg g s h)
      exact main _ _ (valsAre_initConst g.nodes le_rfl)
    split
    · rename_i hgt
      intro p hp
      simp only [List.mem_map] at hp
      obtain ⟨q, hq, hpq⟩ := hp
      subst hpq
      have h1 : (0:ℚ) ≤ q.2 := hsum q hq
      have h2 : (0:ℚ) ≤ 2 / (((g.nodes.length : ℚ) - 1) * ((g.nodes.length : ℚ) - 2)) := by
        have h3 : (3:ℚ) ≤ (g.nodes.length : ℚ) := by exact_mod_cast hge
        have : (0:ℚ) < ((g.nodes.length : ℚ) - 1) * ((g.nodes.length : ℚ) - 2) := by nlinarith
        positivity
      exact mul_nonneg h1 h2
    · exact hsum

/-- Claim C1 (amended): for a graph with fewer than 3 nodes the returned map
assigns 0 to every node; for every graph all betweenness scores are
nonnegative, but they are not bounded by 1 (see the counterexample: the
middle node of a 3-node path scores 2, because the per-source dependency sums
count each unordered pair twice before the 2/((n-1)(n-2)) scaling). -/
theorem claim_C1_amended :
    ∀ g : SimpleGraph',
      (g.nodes.length < 3 → ∀ x ∈ g.nodes, jget (betweennessCentrality g) x = some 0) ∧
      ValsAre (fun q => 0 ≤ q) (betweennessCentrality g) := by
  intro g
  refine ⟨?_, betweennessCentrality_nonneg g⟩
  intro hlt x hx
  unfold betweennessCentrality
  rw [if_pos hlt]
  exact jget_initConst_mem 0 hx

/-- Witness for claim C1: the two-node graph gets betweenness 0 on node a,
and a concrete entry of its betweenness map is nonnegative. -/
theorem claim_C1_witness :
    jget (betweennessCentrality twoNodeGraph) "a" = some 0 ∧ (0:ℚ) ≤ 0 :=
  ⟨(claim_C1_amended twoNodeGraph).1 (by decide) "a" (by decide),
   (claim_C1_amended twoNodeGraph).2 ("a", 0) (by decide)⟩

/-- Counterexample to claim C1 as stated: the 3-node path a - b - c has 3
nodes, yet betweennessCentrality assigns node b the score 2, which lies
outside [0, 1]. -/
theorem claim_C1_counterexample :
    jget (betweennessCentrality pathGraph3) "b" = some 2 ∧ ¬ ((2:ℚ) ≤ 1) := by
  constructor
  · simp [betweennessCentrality, pathGraph3, brandesSource, bfsLoop, bfsStep,
      visitNeighbor, accumNode, accumPred, bfsFuel, totalRowEntries, initConst,
      createGraph, addEdge, addNode, getNeighbors, jget, jset, jkeys, jhas, jadd]
    norm_num
  · norm_num

/-! ## Claims C6 and C3: small-graph community behavior and the clustering
coefficient average -/

/-- Claim C6 (amended): the empty graph yields an empty community assignment,
but a single-node graph yields the map sending that node to community 0, not
an empty map. -/
theorem claim_C6_amended :
    ∀ g : SimpleGraph',
      (g.nodes = [] → detectCommunities g = []) ∧
      (∀ n : String, g.nodes = [n] → detectCommunities g = [(n, 0)]) := by
  intro g
  constructor
  · intro h
    simp [detectCommunities, h]
  · intro n h
    simp [detectCommunities, h]

/-- Witness for claim C6 at the empty graph and a concrete one-node graph. -/
theorem claim_C6_witness :
    detectCommunities createGraph = [] ∧
    detectCommunities singleNodeGraph = [("a", 0)] :=
  ⟨(claim_C6_amended createGraph).1 rfl,
   (claim_C6_amended singleNodeGraph).2 "a" (by decide)⟩

/-- Counterexample to claim C6 as stated: the single-node graph does not get
an empty assignment; its node is mapped to community 0. -/
theorem claim_C6_counterexample :
    singleNodeGraph.nodes = ["a"] ∧ detectCommunities singleNodeGraph ≠ [] := by
  constructor
  · decide
  · decide

theorem avgCC_fold (g : SimpleGraph') :
    ∀ (l : List String) (acc : ℚ),
      l.foldl (fun acc node =>
        let neighbors := getNeighbors g node
        let k := neighbors.length
        if k < 2 then acc
        else acc + (countNeighborLinks g neighbors : ℚ) / (((k : ℚ) * ((k : ℚ) - 1)) / 2)) acc
      = acc + ((l.filter (fun n => 2 ≤ (getNeighbors g n).length)).map
          (localClusteringCoefficient g)).sum := by
  intro l
  induction l with
  | nil => intro acc; simp
  | cons n rest ih =>
    intro acc
    rw [List.foldl_cons, List.filter_cons]
    by_cases h : (getNeighbors g n).length < 2
    · have hd : decide (2 ≤ (getNeighbors g n).length) = false := by
        rw [decide_eq_false_iff_not]; omega
      rw [if_pos h, hd, if_neg (by simp), ih acc]
    · have hd : decide (2 ≤ (getNeighbors g n).length) = true := by
        rw [decide_eq_true_eq]; omega
      rw [if_neg h, hd, if_pos rfl, ih]
      simp only [List.map_cons, List.sum_cons, localClusteringCoefficient]
      ring

/-- Claim C3 (amended): averageClusteringCoefficient sums the local
clustering coefficients of the nodes with at least 2 neighbors, but divides
by the TOTAL number of nodes of the graph, not by the number of qualifying
nodes; low-degree nodes are excluded from the numerator only. -/
theorem claim_C3_amended :
    ∀ g : SimpleGraph', g.nodes ≠ [] →
      averageClusteringCoefficient g =
        ((g.nodes.filter (fun n => 2 ≤ (getNeighbors g n).length)).map
          (localClusteringCoefficient g)).sum / (g.nodes.length : ℚ) := by
  intro g h
  unfold averageClusteringCoefficient
  dsimp only
  rw [if_neg (by simpa using h), avgCC_fold]
  rw [zero_add]

/-- Witness for claim C3 at the triangle-with-pendant graph. -/
theorem claim_C3_witness :
    averageClusteringCoefficient triangleWithPendant =
      ((triangleWithPendant.nodes.filter
          (fun n => 2 ≤ (getNeighbors triangleWithPendant n).length)).map
        (localClusteringCoefficient triangleWithPendant)).sum /
        (triangleWithPendant.nodes.length : ℚ) :=
  claim_C3_amended triangleWithPendant (by decide)

/-- Counterexample to claim C3 as stated: on the triangle-with-pendant graph
the source divides the coefficient total 7/3 by all 4 nodes giving 7/12,
whereas the claimed average over the 3 qualifying nodes would give 7/9. -/
theorem claim_C3_counterexample :
    averageClusteringCoefficient triangleWithPendant = 7 / 12 ∧
    claimedAverageClusteringCoefficient triangleWithPendant = 7 / 9 ∧
    (7 / 12 : ℚ) ≠ 7 / 9 := by
  refine ⟨?_, ?_, by norm_num⟩
  · simp [averageClusteringCoefficient, triangleWithPendant, countNeighborLinks,
      getNeighbors, createGraph, addEdge, addNode, jget, jset, jkeys, jhas, jadd]
    norm_num
  · simp [claimedAverageClusteringCoefficient, localClusteringCoefficient,
      triangleWithPendant, countNeighborLinks, getNeighbors, createGraph, addEdge,
      addNode, jget, jset, jkeys, jhas, jadd]
    norm_num

/-! ## Claim C9: community coverage and contiguous renumbering -/

theorem jset_append_of_not_mem {K V : Type} [DecidableEq K] {m : JMap K V} {k : K}
    (v : V) (hk : k ∉ jkeys m) : jset m k v = m ++ [(k, v)] := by
  induction m with
  | nil => simp [jset]
  | cons p rest ih =>
    obtain ⟨k0, v0⟩ := p
    rw [jkeys, List.mem_cons] at hk
    push_neg at hk
    simp [jset, hk.1, ih hk.2]

theorem mem_jadd {K : Type} [DecidableEq K] {s : List K} {k x : K} :
    x ∈ jadd s k ↔ x ∈ s ∨ x = k := by
  unfold jadd
  by_cases h : k ∈ s
  · simp only [if_pos h]
    constructor
    · exact Or.inl
    · rintro (hx | rfl)
      · exact hx
      · exact h
  · simp [if_neg h]

theorem nodup_jadd {K : Type} [DecidableEq K] {s : List K} (k : K) (hs : s.Nodup) :
    (jadd s k).Nodup := by
  unfold jadd
  by_cases h : k ∈ s
  · simpa [if_pos h] using hs
  · simp only [if_neg h]
    exact List.Nodup.append hs (List.nodup_singleton k) (by simpa using h)

theorem mem_foldl_jadd {K : Type} [DecidableEq K] (l : List K) :
    ∀ (acc : List K) (x : K), x ∈ l.foldl jadd acc ↔ x ∈ acc ∨ x ∈ l := by
  induction l with
  | nil => intro acc x; simp
  | cons a rest ih =>
    intro acc x
    rw [List.foldl_cons, ih, mem_jadd, List.mem_cons]
    tauto

theorem nodup_foldl_jadd {K : Type} [DecidableEq K] (l : List K) :
    ∀ (acc : List K), acc.Nodup → (l.foldl jadd acc).Nodup := by
  induction l with
  | nil => intro acc h; exact h
  | cons a rest ih => intro acc h; exact ih _ (nodup_jadd a h)

theorem mem_jsDedup {K : Type} [DecidableEq K] {l : List K} {x : K} :
    x ∈ jsDedup l ↔ x ∈ l := by
  unfold jsDedup
  rw [mem_foldl_jadd]
  simp

theorem nodup_jsDedup {K : Type} [DecidableEq K] (l : List K) : (jsDedup l).Nodup :=
  nodup_foldl_jadd l [] List.nodup_nil

theorem counterFold_keys (ns : List String) :
    ∀ (m : JMap String ℕ) (c : ℕ), (∀ x ∈ ns, x ∉ jkeys m) → ns.Nodup →
      jkeys ((ns.foldl (fun (p : JMap String ℕ × ℕ) node => (jset p.1 node p.2, p.2 + 1))
        (m, c)).1) = jkeys m ++ ns := by
  induction ns with
  | nil => intro m c _ _; simp
  | cons n rest ih =>
    intro m c hdisj hnd
    rw [List.foldl_cons]
    have hn : n ∉ jkeys m := hdisj n (List.mem_cons_self _ _)
    have hkeys : jkeys (jset m n c) = jkeys m ++ [n] := jkeys_jset_new c hn
    rw [List.nodup_cons] at hnd
    have hdisj2 : ∀ x ∈ rest, x ∉ jkeys (jset m n c) := by
      intro x hx
      rw [hkeys, List.mem_append, List.mem_singleton]
      push_neg
      refine ⟨hdisj x (List.mem_cons_of_mem _ hx), ?_⟩
      intro hxe
      exact hnd.1 (hxe ▸ hx)
    rw [ih (jset m n c) (c + 1) hdisj2 hnd.2, hkeys]
    simp

theorem jget_counterFold_not_mem {l : List ℕ} {x : ℕ} :
    ∀ (m : JMap ℕ ℕ) (c : ℕ), x ∉ l →
      jget ((l.foldl (fun (p : JMap ℕ ℕ × ℕ) old => (jset p.1 old p.2, p.2 + 1))
        (m, c)).1) x = jget m x := by
  induction l with
  | nil => intro m c _; rfl
  | cons a rest ih =>
    intro m c hx
    rw [List.mem_cons] at hx
    push_neg at hx
    rw [List.foldl_cons, ih (jset m a c) (c + 1) hx.2]
    exact jget_jset_other m a x c hx.1

theorem jget_counterFold_get (l : List ℕ) :
    ∀ (m : JMap ℕ ℕ) (c : ℕ), l.Nodup → (∀ x ∈ l, x ∉ jkeys m) →
      ∀ (j : ℕ) (h : j < l.length),
        jget ((l.foldl (fun (p : JMap ℕ ℕ × ℕ) old => (jset p.1 old p.2, p.2 + 1))
          (m, c)).1) (l.get ⟨j, h⟩) = some (c + j) := by
  induction l with
  | nil => intro m c _ _ j h; cases h
  | cons a rest ih =>
    intro m c hnd hdisj j h
    rw [List.nodup_cons] at hnd
    rw [List.foldl_cons]
    dsimp only
    match j with
    | 0 =>
      have hkeep : jget ((rest.foldl (fun (p : JMap ℕ ℕ × ℕ) old => (jset p.1 old p.2, p.2 + 1))
          (jset m a c, c + 1)).1) a = jget (jset m a c) a :=
        jget_counterFold_not_mem (jset m a c) (c + 1) hnd.1
      simpa [hkeep] using jget_jset_self m a c
    | Nat.succ i =>
      have hdisj2 : ∀ x ∈ rest, x ∉ jkeys (jset m a c) := by
        intro x hx
        rw [jkeys_jset_new c (hdisj a (List.mem_cons_self _ _)), List.mem_append,
          List.mem_singleton]
        push_neg
        refine ⟨hdisj x (List.mem_cons_of_mem _ hx), ?_⟩
        intro hxe
        exact hnd.1 (hxe ▸ hx)
      have hlt : i < rest.length := by simpa using Nat.lt_of_succ_lt_succ h
      have hih := ih (jset m a c) (c + 1) hnd.2 hdisj2 i hlt
      have hget : (a :: rest).get ⟨i + 1, h⟩ = rest.get ⟨i, hlt⟩ := rfl
      rw [hget, hih]
      congr 1
      omega

theorem jkeys_append {K V : Type} (l1 l2 : JMap K V) :
    jkeys (l1 ++ l2) = jkeys l1 ++ jkeys l2 := by
  induction l1 with
  | nil => rfl
  | cons p rest ih => obtain ⟨k, v⟩ := p; simpa [jkeys] using ih

theorem jvals_append {K V : Type} (l1 l2 : JMap K V) :
    jvals (l1 ++ l2) = jvals l1 ++ jvals l2 := by
  induction l1 with
  | nil => rfl
  | cons p rest ih => obtain ⟨k, v⟩ := p; simpa [jvals] using ih

theorem renumberFold_spec (f : ℕ → ℕ) (entries : JMap String ℕ) :
    ∀ (acc : JMap String ℕ), (jkeys entries).Nodup →
      (∀ x ∈ jkeys entries, x ∉ jkeys acc) →
      jkeys (entries.foldl (fun result q => jset result q.1 (f q.2)) acc)
        = jkeys acc ++ jkeys entries ∧
      jvals (entries.foldl (fun result q => jset result q.1 (f q.2)) acc)
        = jvals acc ++ (jvals entries).map f := by
  induction entries with
  | nil => intro acc _ _; simp [jkeys, jvals]
  | cons p rest ih =>
    obtain ⟨k, v⟩ := p
    intro acc hnd hdisj
    rw [jkeys] at hnd hdisj
    rw [List.nodup_cons] at hnd
    rw [List.foldl_cons]
    have hk : k ∉ jkeys acc := hdisj k (List.mem_cons_self _ _)
    have hset : jset acc k (f v) = acc ++ [(k, f v)] := jset_append_of_not_mem (f v) hk
    have hdisj2 : ∀ x ∈ jkeys rest, x ∉ jkeys (jset acc k (f v)) := by
      intro x hx
      rw [hset, jkeys_append, List.mem_append]
      push_neg
      refine ⟨hdisj x (List.mem_cons_of_mem _ hx), ?_⟩
      simp only [jkeys, List.mem_singleton]
      intro hxe
      exact hnd.1 (hxe ▸ hx)
    obtain ⟨ihk, ihv⟩ := ih (jset acc k (f v)) hnd.2 hdisj2
    constructor
    · rw [ihk, hset, jkeys_append]
      simp [jkeys]
    · rw [ihv, hset, jvals_append]
      simp [jvals]

/-- The renumbering step of detectCommunities preserves the key list (when
keys are duplicate-free) and makes the used community ids exactly the range
0, ..., k-1 for k the number of distinct incoming ids. -/
theorem renumberCommunities_spec (comm : JMap String ℕ) (hnd : (jkeys comm).Nodup) :
    jkeys (renumberCommunities comm) = jkeys comm ∧
    (∀ v ∈ jvals (renumberCommunities comm), v < (jsDedup (jvals comm)).length) ∧
    (∀ i < (jsDedup (jvals comm)).length, i ∈ jvals (renumberCommunities comm)) := by
  unfold renumberCommunities
  dsimp only
  set uniq := jsDedup (jvals comm) with huniq
  set cmap := (uniq.foldl (fun (p : JMap ℕ ℕ × ℕ) oldId => (jset p.1 oldId p.2, p.2 + 1))
    ([], 0)).1 with hcmap
  have hspec := renumberFold_spec (fun v => (jget cmap v).getD 0) comm [] hnd (by simp [jkeys])
  simp only [jkeys, jvals, List.nil_append] at hspec
  obtain ⟨hkeys, hvalues⟩ := hspec
  have hcmap_get : ∀ (j : ℕ) (h : j < uniq.length), jget cmap (uniq.get ⟨j, h⟩) = some j := by
    intro j h
    have := jget_counterFold_get uniq [] 0 (nodup_jsDedup _) (by simp [jkeys]) j h
    simpa using this
  refine ⟨hkeys, ?_, ?_⟩
  · intro v hv
    rw [hvalues] at hv
    rcases List.mem_map.mp hv with ⟨v0, hv0, hvv⟩
    have hv0u : v0 ∈ uniq := by
      rw [huniq, mem_jsDedup]; exact hv0
    rcases List.mem_iff_get.mp hv0u with ⟨⟨j, hj⟩, hget⟩
    have hfv : (jget cmap v0).getD 0 = j := by
      rw [← hget, hcmap_get j hj]
      rfl
    rw [← hvv, hfv]
    exact hj
  · intro i hi
    rw [hvalues]
    have hu : uniq.get ⟨i, hi⟩ ∈ uniq := List.get_mem _ _ _
    have hucomm : uniq.get ⟨i, hi⟩ ∈ jvals comm := mem_jsDedup.mp hu
    refine List.mem_map.mpr ⟨uniq.get ⟨i, hi⟩, hucomm, ?_⟩
    rw [hcmap_get i hi]
    rfl

theorem louvainInit_keys {ns : List String} (hnd : ns.Nodup) :
    jkeys (louvainInit ns) = ns := by
  unfold louvainInit
  have := counterFold_keys ns [] 0 (by simp [jkeys]) hnd
  simpa using this

theorem louvainNodeStep_keys (g : SimpleGraph') (p : JMap String ℕ × Bool)
    (node : String) (hmem : node ∈ jkeys p.1) :
    jkeys (louvainNodeStep g p node).1 = jkeys p.1 := by
  unfold louvainNodeStep
  dsimp only
  split
  · exact jkeys_jset_mem _ hmem
  · rfl

theorem louvainPassFold_keys (g : SimpleGraph') (l : List String) :
    ∀ (p : JMap String ℕ × Bool), (∀ x ∈ l, x ∈ jkeys p.1) →
      jkeys ((l.foldl (louvainNodeStep g) p).1) = jkeys p.1 := by
  induction l with
  | nil => intro p _; rfl
  | cons n rest ih =>
    intro p hmem
    rw [List.foldl_cons]
    have hkeys : jkeys (louvainNodeStep g p n).1 = jkeys p.1 :=
      louvainNodeStep_keys g p n (hmem n (List.mem_cons_self _ _))
    rw [ih (louvainNodeStep g p n)
      (fun x hx => hkeys ▸ hmem x (List.mem_cons_of_mem _ hx)), hkeys]

theorem louvainLoop_keys (g : SimpleGraph') (fuel : ℕ) :
    ∀ (comm : JMap String ℕ), jkeys comm = g.nodes →
      jkeys (louvainLoop g fuel comm) = g.nodes := by
  induction fuel with
  | zero => intro comm h; exact h
  | succ n ih =>
    intro comm h
    unfold louvainLoop louvainPass
    dsimp only
    have hkeys : jkeys ((g.nodes.foldl (louvainNodeStep g) (comm, false)).1) = g.nodes := by
      rw [louvainPassFold_keys g g.nodes (comm, false) (by intro x hx; rw [h]; exact hx)]
      exact h
    split
    · exact ih _ hkeys
    · exact hkeys

/-- Claim C9: for every graph whose node set is duplicate-free (JS Sets hold
no duplicates), detectCommunities assigns a community to exactly the nodes of
the graph, in order, and the ids used form a contiguous range 0, ..., k-1. -/
theorem claim_C9_communities_cover :
    ∀ g : SimpleGraph', g.nodes.Nodup →
      jkeys (detectCommunities g) = g.nodes ∧
      ∃ k : ℕ, (∀ v ∈ jvals (detectCommunities g), v < k) ∧
        (∀ i < k, i ∈ jvals (detectCommunities g)) := by
  intro g hnd
  unfold detectCommunities
  by_cases h0 : g.nodes.length = 0
  · rw [if_pos h0]
    have he : g.nodes = [] := List.length_eq_zero.mp h0
    rw [he]
    refine ⟨rfl, 0, ?_, ?_⟩
    · intro v hv; cases hv
    · intro i hi; omega
  · by_cases h1 : g.nodes.length = 1
    · rw [if_neg h0, if_pos h1]
      obtain ⟨n, hn⟩ := List.length_eq_one.mp h1
      rw [hn]
      refine ⟨rfl, 1, ?_, ?_⟩
      · intro v hv
        simp [jvals] at hv
        omega
      · intro i hi
        interval_cases i
        simp [jvals]
    · rw [if_neg h0, if_neg h1]
      have hinit : jkeys (louvainInit g.nodes) = g.nodes := louvainInit_keys hnd
      have hloop : jkeys (louvainLoop g 100 (louvainInit g.nodes)) = g.nodes :=
        louvainLoop_keys g 100 _ hinit
      have hnd2 : (jkeys (louvainLoop g 100 (louvainInit g.nodes))).Nodup := by
        rw [hloop]; exact hnd
      obtain ⟨h2, h3, h4⟩ := renumberCommunities_spec _ hnd2
      exact ⟨h2.trans hloop, _, h3, h4⟩

/-- Witness for claim C9 at the 3-node path graph. -/
theorem claim_C9_witness :
    jkeys (detectCommunities pathGraph3) = pathGraph3.nodes ∧
    ∃ k : ℕ, (∀ v ∈ jvals (detectCommunities pathGraph3), v < k) ∧
      (∀ i < k, i ∈ jvals (detectCommunities pathGraph3)) :=
  claim_C9_communities_cover pathGraph3 (by decide)

/-! ## Claim C4: bridge candidates of structural gaps -/

theorem mem_insertDescBy {α : Type} (f : α → ℚ) (x y : α) (l : List α) :
    y ∈ insertDescBy f x l ↔ y = x ∨ y ∈ l := by
  induction l with
  | nil => simp [insertDescBy]
  | cons d rest ih =>
    unfold insertDescBy
    split
    · simp only [List.mem_cons]
    · rw [List.mem_cons, ih, List.mem_cons]
      tauto

theorem mem_sortDescBy {α : Type} (f : α → ℚ) (l : List α) (y : α) :
    y ∈ sortDescBy f l ↔ y ∈ l := by
  have main : ∀ (l acc : List α),
      (y ∈ l.foldl (fun acc x => insertDescBy f x acc) acc ↔ y ∈ acc ∨ y ∈ l) := by
    intro l
    induction l with
    | nil => intro acc; simp
    | cons a rest ih =>
      intro acc
      rw [List.foldl_cons, ih, mem_insertDescBy]
      simp only [List.mem_cons]
      tauto
  unfold sortDescBy
  rw [main l []]
  simp

theorem pairwise_insertDescBy {α : Type} (f : α → ℚ) (x : α) (l : List α)
    (h : l.Pairwise (fun a b => f b ≤ f a)) :
    (insertDescBy f x l).Pairwise (fun a b => f b ≤ f a) := by
  induction l with
  | nil => simp [insertDescBy]
  | cons d rest ih =>
    rw [List.pairwise_cons] at h
    unfold insertDescBy
    split
    · rename_i hgt
      rw [List.pairwise_cons]
      refine ⟨?_, List.pairwise_cons.mpr h⟩
      intro z hz
      rcases List.mem_cons.mp hz with rfl | hz
      · exact le_of_lt hgt
      · exact le_trans (h.1 z hz) (le_of_lt hgt)
    · rename_i hle
      push_neg at hle
      rw [List.pairwise_cons]
      constructor
      · intro z hz
        rcases (mem_insertDescBy f x z rest).mp hz with rfl | hz
        · exact hle
        · exact h.1 z hz
      · exact ih h.2

theorem pairwise_sortDescBy {α : Type} (f : α → ℚ) (l : List α) :
    (sortDescBy f l).Pairwise (fun a b => f b ≤ f a) := by
  have main : ∀ (l acc : List α), acc.Pairwise (fun a b => f b ≤ f a) →
      (l.foldl (fun acc x => insertDescBy f x acc) acc).Pairwise
        (fun a b => f b ≤ f a) := by
    intro l
    induction l with
    | nil => intro acc h; exact h
    | cons a rest ih => intro acc h; exact ih _ (pairwise_insertDescBy f a acc h)
  exact main l [] List.Pairwise.nil

theorem mem_candidatesFrom {g : SimpleGraph'} {fromC toC : ℕ}
    {communities : JMap String ℕ} {fromEntities toEntities : List String}
    {c : BridgeCandidateInfo}
    (hc : c ∈ candidatesFrom g fromC toC communities fromEntities toEntities) :
    c.fromCluster = fromC ∧ c.entityId ∈ fromEntities ∧
    (getNeighbors g c.entityId).filter (fun nb => jget communities nb = some toC) = [] ∧
    c.expectedImpact = (getDegree g c.entityId : ℚ) * (toEntities.length : ℚ) /
      max (toEntities.length : ℚ) 1 := by
  unfold candidatesFrom at hc
  rw [List.mem_filterMap] at hc
  obtain ⟨node, hnode, heq⟩ := hc
  dsimp only at heq
  split at heq
  · rename_i hzero
    rw [Option.some.injEq] at heq
    subst heq
    refine ⟨rfl, hnode, List.length_eq_zero.mp hzero, ?_⟩
    dsimp only
    rw [hzero]
    push_cast
    ring
  · cases heq

theorem findBridgeCandidates_spec (g : SimpleGraph') (c1 c2 : ℕ)
    (communities : JMap String ℕ) (clusterNodes : JMap ℕ (List String)) :
    (findBridgeCandidates g c1 c2 communities clusterNodes).length ≤ 5 ∧
    (findBridgeCandidates g c1 c2 communities clusterNodes).Pairwise
      (fun a b => b.expectedImpact ≤ a.expectedImpact) ∧
    ∀ c ∈ findBridgeCandidates g c1 c2 communities clusterNodes,
      ((c.fromCluster = c1 ∧ c.entityId ∈ (jget clusterNodes c1).getD [] ∧
        (getNeighbors g c.entityId).filter (fun nb => jget communities nb = some c2) = [] ∧
        c.expectedImpact = (getDegree g c.entityId : ℚ) *
          ((((jget clusterNodes c2).getD []).length : ℚ)) /
          max (((jget clusterNodes c2).getD []).length : ℚ) 1) ∨
       (c.fromCluster = c2 ∧ c.entityId ∈ (jget clusterNodes c2).getD [] ∧
        (getNeighbors g c.entityId).filter (fun nb => jget communities nb = some c1) = [] ∧
        c.expectedImpact = (getDegree g c.entityId : ℚ) *
          ((((jget clusterNodes c1).getD []).length : ℚ)) /
          max (((jget clusterNodes c1).getD []).length : ℚ) 1)) := by
  unfold findBridgeCandidates
  dsimp only
  refine ⟨List.length_take_le _ _, ?_, ?_⟩
  · exact ((pairwise_sortDescBy _ _).sublist (List.take_sublist _ _))
  · intro c hc
    have hc2 := (mem_sortDescBy _ _ _).mp (List.mem_of_mem_take hc)
    rcases List.mem_append.mp hc2 with hmem | hmem
    · exact Or.inl (mem_candidatesFrom hmem)
    · exact Or.inr (mem_candidatesFrom hmem)

/-- Claim C4 (amended): for every reported gap, the bridge candidates are
nodes of one of the two clusters with zero direct neighbors in the other,
ranked by expected impact = degree x (other-cluster size) / max(size, 1)
(the full fraction of the other cluster, since no neighbor there is
reachable), but the top-5 truncation is applied to the MERGED list of both
directions, not per direction. -/
theorem claim_C4_amended :
    ∀ (g : SimpleGraph') (communities : JMap String ℕ) (minDistance : ℚ) (maxGaps : ℕ),
      ∀ gap ∈ detectStructuralGaps g communities minDistance maxGaps,
        gap.bridgeCandidates.length ≤ 5 ∧
        gap.bridgeCandidates.Pairwise (fun a b => b.expectedImpact ≤ a.expectedImpact) ∧
        ∀ c ∈ gap.bridgeCandidates,
          ((c.fromCluster = gap.cluster1 ∧ c.entityId ∈ gap.cluster1Entities ∧
            (getNeighbors g c.entityId).filter
              (fun nb => jget communities nb = some gap.cluster2) = [] ∧
            c.expectedImpact = (getDegree g c.entityId : ℚ) *
              (gap.cluster2Entities.length : ℚ) / max (gap.cluster2Entities.length : ℚ) 1) ∨
           (c.fromCluster = gap.cluster2 ∧ c.entityId ∈ gap.cluster2Entities ∧
            (getNeighbors g c.entityId).filter
              (fun nb => jget communities nb = some gap.cluster1) = [] ∧
            c.expectedImpact = (getDegree g c.entityId : ℚ) *
              (gap.cluster1Entities.length : ℚ) / max (gap.cluster1Entities.length : ℚ) 1)) := by
  intro g communities minDistance maxGaps gap hgap
  unfold detectStructuralGaps at hgap
  have hgap2 := (mem_sortDescBy _ _ _).mp (List.mem_of_mem_take hgap)
  rw [List.mem_filterMap] at hgap2
  obtain ⟨pr, hpr, heq⟩ := hgap2
  dsimp only at heq
  split at heq
  · rw [Option.some.injEq] at heq
    subst heq
    exact findBridgeCandidates_spec g pr.1 pr.2 communities (getCommunitiesMap communities)
  · cases heq

theorem communitiesMap_gapCommunities :
    getCommunitiesMap gapCommunities
      = [(0, ["a1", "a2", "a3", "a4", "a5", "a6"]), (1, ["b1"])] := by
  simp [getCommunitiesMap, gapCommunities, jget, jset]

set_option maxHeartbeats 1000000 in
theorem interClusterDistance_gapGraph :
    interClusterDistance gapGraph 0 1 gapCommunities = 1 := by
  simp [interClusterDistance, gapGraph, gapCommunities, jget, min_eq_right]

set_option maxHeartbeats 1000000 in
theorem candidatesFrom_gapGraph_A :
    candidatesFrom gapGraph 0 1 gapCommunities ["a1", "a2", "a3", "a4", "a5", "a6"] ["b1"]
      = [{ entityId := "a1", fromCluster := 0, potentialConnections := ["b1"],
           expectedImpact := 1 },
         { entityId := "a2", fromCluster := 0, potentialConnections := ["b1"],
           expectedImpact := 2 },
         { entityId := "a3", fromCluster := 0, potentialConnections := ["b1"],
           expectedImpact := 2 },
         { entityId := "a4", fromCluster := 0, potentialConnections := ["b1"],
           expectedImpact := 2 },
         { entityId := "a5", fromCluster := 0, potentialConnections := ["b1"],
           expectedImpact := 2 },
         { entityId := "a6", fromCluster := 0, potentialConnections := ["b1"],
           expectedImpact := 1 }] := by
  simp [candidatesFrom, gapGraph, gapCommunities, getNeighbors, getDegree,
    jget, jkeys]

set_option maxHeartbeats 1000000 in
theorem candidatesFrom_gapGraph_B :
    candidatesFrom gapGraph 1 0 gapCommunities ["b1"] ["a1", "a2", "a3", "a4", "a5", "a6"]
      = [{ entityId := "b1", fromCluster := 1,
           potentialConnections := ["a1", "a2", "a3", "a4", "a5"],
           expectedImpact := 0 }] := by
  simp [candidatesFrom, gapGraph, gapCommunities, getNeighbors, getDegree,
    jget, jkeys]

set_option maxHeartbeats 1000000 in
theorem findBridgeCandidates_gapGraph :
    findBridgeCandidates gapGraph 0 1 gapCommunities
        [(0, ["a1", "a2", "a3", "a4", "a5", "a6"]), (1, ["b1"])]
      = gapWitness.bridgeCandidates := by
  unfold findBridgeCandidates
  dsimp only
  rw [show (jget [(0, ["a1", "a2", "a3", "a4", "a5", "a6"]), (1, ["b1"])] 0).getD []
      = ["a1", "a2", "a3", "a4", "a5", "a6"] from rfl,
    show (jget [(0, ["a1", "a2", "a3", "a4", "a5", "a6"]), (1, ["b1"])] 1).getD []
      = ["b1"] from rfl,
    candidatesFrom_gapGraph_A, candidatesFrom_gapGraph_B]
  simp [sortDescBy, insertDescBy, gapWitness]
  norm_num

set_option maxHeartbeats 1000000 in
theorem detectStructuralGaps_gapGraph :
    detectStructuralGaps gapGraph gapCommunities (3 / 10) 5 = [gapWitness] := by
  unfold detectStructuralGaps
  rw [communitiesMap_gapCommunities]
  dsimp only
  rw [show jkeys [((0:ℕ), ["a1", "a2", "a3", "a4", "a5", "a6"]), (1, ["b1"])] = [0, 1] from rfl,
    show clusterPairs [0, 1] = [(0, 1)] from rfl]
  rw [List.filterMap_cons, List.filterMap_nil]
  dsimp only
  rw [interClusterDistance_gapGraph, if_pos (by norm_num), findBridgeCandidates_gapGraph]
  rw [show (jget [((0:ℕ), ["a1", "a2", "a3", "a4", "a5", "a6"]), (1, ["b1"])] 0).getD []
      = ["a1", "a2", "a3", "a4", "a5", "a6"] from rfl,
    show (jget [((0:ℕ), ["a1", "a2", "a3", "a4", "a5", "a6"]), (1, ["b1"])] 1).getD []
      = ["b1"] from rfl]
  rfl

/-- Witness for claim C4: the gap that detectStructuralGaps reports between
the 6-node path cluster and the isolated node satisfies the amended bounds. -/
theorem claim_C4_witness :
    gapWitness.bridgeCandidates.length ≤ 5 ∧
    gapWitness.bridgeCandidates.Pairwise
      (fun a b => b.expectedImpact ≤ a.expectedImpact) := by
  have h := claim_C4_amended gapGraph gapCommunities (3 / 10) 5 gapWitness (by
    rw [detectStructuralGaps_gapGraph]
    exact List.mem_singleton.mpr rfl)
  exact ⟨h.1, h.2.1⟩

/-- Counterexample to claim C4 as stated: on the 6-node path plus isolated
node, the code returns the top 5 of the MERGED candidate list (all from the
path cluster, the isolated node b1 is cut off), whereas top-5 per direction
then merged would keep b1 as a sixth candidate. -/
theorem claim_C4_counterexample :
    (detectStructuralGaps gapGraph gapCommunities (3 / 10) 5).map
      (fun gap => gap.bridgeCandidates.map (fun c => c.entityId))
      = [["a2", "a3", "a4", "a5", "a1"]] ∧
    (claimedBridgeCandidates gapGraph 0 1 gapCommunities
        (getCommunitiesMap gapCommunities)).map (fun c => c.entityId)
      = ["a2", "a3", "a4", "a5", "a1", "b1"] := by
  constructor
  · rw [detectStructuralGaps_gapGraph]
    rfl
  · rw [communitiesMap_gapCommunities]
    unfold claimedBridgeCandidates
    dsimp only
    rw [show (jget [((0:ℕ), ["a1", "a2", "a3", "a4", "a5", "a6"]), (1, ["b1"])] 0).getD []
        = ["a1", "a2", "a3", "a4", "a5", "a6"] from rfl,
      show (jget [((0:ℕ), ["a1", "a2", "a3", "a4", "a5", "a6"]), (1, ["b1"])] 1).getD []
        = ["b1"] from rfl,
      candidatesFrom_gapGraph_A, candidatesFrom_gapGraph_B]
    simp [sortDescBy, insertDescBy]

/-! ## Claims C2 and C5: ensemble matching and consumption -/

theorem lev_ml_value : levenshteinDistance "machine learning" "ml" = 14 := by decide

theorem sim_ml_value :
    stringSimilarity (jsToLower entityML.name) (jsToLower entityMachineLearning.name)
      = 1 / 8 := by
  rw [show jsToLower entityML.name = "ml" from by decide,
    show jsToLower entityMachineLearning.name = "machine learning" from by decide]
  unfold stringSimilarity
  dsimp only
  have hgt : ¬ ("ml".length > "machine learning".length) := by decide
  rw [if_neg hgt, if_neg hgt,
    if_neg (by decide : ¬ ("machine learning".length = 0)), lev_ml_value,
    show ("machine learning".length) = 16 from by decide]
  norm_num

theorem findMatch_ml :
    findMatch defaultEnsembleOptions entityML [entityMachineLearning] = none := by
  unfold findMatch
  dsimp only
  rw [if_neg (by decide), if_neg ?hc2, if_neg (by decide)]
  case hc2 =>
    intro hand
    have h1 := hand.1
    rw [sim_ml_value] at h1
    norm_num [defaultEnsembleOptions] at h1
  rfl

/-- Claim C2: the pair ML / Machine Learning is NOT matched by merge, against
the stated claim and the comment in the source (findMatch, the containment
check): ml is not a contiguous substring of machine learning, and the
containment guard additionally requires the contained name to be longer than
3 characters, so the two entities come back as two single-source results with
no agreement instead of one merged entity. -/
theorem claim_C2_ml_not_merged :
    (merge defaultEnsembleOptions [entityML] [entityMachineLearning]).1.map
        (fun e => e.agreementLevel)
      = [AgreementLevel.textrazor_only, AgreementLevel.nuextract_only] ∧
    (merge defaultEnsembleOptions [entityML] [entityMachineLearning]).2.bothAgreed = 0 ∧
    jsToLower entityML.name ≠ jsToLower entityMachineLearning.name ∧
    stringSimilarity (jsToLower entityML.name) (jsToLower entityMachineLearning.name)
      < defaultEnsembleOptions.nameMatchThreshold ∧
    entityML.type = entityMachineLearning.type := by
  refine ⟨?_, ?_, by decide, ?_, by decide⟩
  · simp [merge, mergePhase1, findMatch_ml, createSingleSourceEntity]
  · simp [merge, mergePhase1, findMatch_ml, createSingleSourceEntity]
  · rw [sim_ml_value]
    norm_num [defaultEnsembleOptions]

theorem mergePhase1_no_nuextract_only (opts : EnsembleOptions)
    (nus : List EntityWithProvenance) (trs : List EntityWithProvenance) :
    ∀ e ∈ (mergePhase1 opts nus trs).1,
      e.agreementLevel ≠ AgreementLevel.nuextract_only := by
  unfold mergePhase1
  have main : ∀ (l : List EntityWithProvenance) (p : List EnsembleEntity × List String),
      (∀ e ∈ p.1, e.agreementLevel ≠ AgreementLevel.nuextract_only) →
      ∀ e ∈ (l.foldl (fun (p : List EnsembleEntity × List String) trEntity =>
        match findMatch opts trEntity nus with
        | some nuMatch => (p.1 ++ [createEnsembleEntity opts trEntity nuMatch],
            jadd p.2 nuMatch.id)
        | none => (p.1 ++ [createSingleSourceEntity opts trEntity SourceTag.textrazor],
            p.2)) p).1,
        e.agreementLevel ≠ AgreementLevel.nuextract_only := by
    intro l
    induction l with
    | nil => intro p hp; exact hp
    | cons tr rest ih =>
      intro p hp
      rw [List.foldl_cons]
      cases hm : findMatch opts tr nus with
      | some nuMatch =>
        refine ih _ ?_
        simp only [hm]
        intro e he
        rcases List.mem_append.mp he with he | he
        · exact hp e he
        · rw [List.mem_singleton] at he
          subst he
          simp [createEnsembleEntity]
      | none =>
        refine ih _ ?_
        simp only [hm]
        intro e he
        rcases List.mem_append.mp he with he | he
        · exact hp e he
        · rw [List.mem_singleton] at he
          subst he
          simp [createSingleSourceEntity]
  intro e he
  exact main trs ([], []) (by intro e he; cases he) e he

/-- Claim C5 (amended): a NuExtract entity whose id was recorded as matched
during the TextRazor pass is never emitted as a nuextract_only single-source
entity; every nuextract_only output comes from an unmatched NuExtract entity.
However, findMatch scans the full candidate list on every call, so one
NuExtract entity can be matched by several TextRazor entities and feed
several agreement-both results (see the counterexample). -/
theorem claim_C5_amended :
    ∀ (opts : EnsembleOptions) (trs nus : List EntityWithProvenance),
      ∀ e ∈ (merge opts trs nus).1, e.agreementLevel = AgreementLevel.nuextract_only →
        ∃ nu ∈ nus, nu.id ∉ (mergePhase1 opts nus trs).2 ∧
          e = createSingleSourceEntity opts nu SourceTag.nuextract := by
  intro opts trs nus e he hlevel
  unfold merge at he
  dsimp only at he
  rcases List.mem_append.mp he with he | he
  · exact absurd hlevel (mergePhase1_no_nuextract_only opts nus trs e he)
  · rcases List.mem_map.mp he with ⟨nu, hnu, rfl⟩
    have hf := List.mem_filter.mp hnu
    refine ⟨nu, hf.1, ?_, rfl⟩
    simpa using hf.2

/-- Witness for claim C5: merging an empty TextRazor list against one
NuExtract entity produces that entity as nuextract_only, coming from an
unmatched NuExtract input. -/
theorem claim_C5_witness :
    ∃ nu ∈ [entityAppleNU],
      nu.id ∉ (mergePhase1 defaultEnsembleOptions [entityAppleNU] []).2 ∧
      createSingleSourceEntity defaultEnsembleOptions entityAppleNU SourceTag.nuextract
        = createSingleSourceEntity defaultEnsembleOptions nu SourceTag.nuextract :=
  claim_C5_amended defaultEnsembleOptions [] [entityAppleNU]
    (createSingleSourceEntity defaultEnsembleOptions entityAppleNU SourceTag.nuextract)
    (by exact List.mem_singleton.mpr rfl) rfl

/-- Counterexample to claim C5 as stated: two TextRazor entities both named
apple each match the single NuExtract entity apple, so one second-list entity
feeds TWO agreement-both merged results. -/
theorem claim_C5_counterexample :
    (merge defaultEnsembleOptions [entityAppleTR1, entityAppleTR2] [entityAppleNU]).2.bothAgreed
      = 2 ∧
    ([entityAppleNU] : List EntityWithProvenance).length = 1 := by
  constructor
  · simp [merge, mergePhase1, findMatch, defaultEnsembleOptions, entityAppleTR1,
      entityAppleTR2, entityAppleNU, jsToLower, createEnsembleEntity, jadd]
  · rfl

/-! ## Claim C7: applyToEdges with filterNegative and combineWithFrequency -/

/-- Claim C7: with filterNegative and combineWithFrequency enabled, every
output edge of applyToEdges has a nonnegative stored PMI/NPMI value (edges
with a negative computed value never appear), and its weight is the input
weight times (1 + max(0, pmi)). -/
theorem claim_C7_applyToEdges_filter_combine :
    ∀ (opts : PMIOptions') (edges : List PMIEdge) (counts : EntityCounts) (useNPMI : Bool),
      (applyToEdges opts edges counts useNPMI true true).Forall (fun r =>
        0 ≤ r.pmi ∧ ∃ e, e ∈ edges ∧ r.source = e.source ∧ r.target = e.target ∧
          r.pmi = (if useNPMI then npmi opts e.source e.target counts
                   else pmi opts e.source e.target counts) ∧
          r.weight = e.weight * (1 + max 0 r.pmi)) := by
  intro opts edges counts useNPMI
  rw [List.forall_iff_forall_mem]
  intro r hr
  unfold applyToEdges at hr
  rw [List.mem_filterMap] at hr
  obtain ⟨e, he, heq⟩ := hr
  dsimp only at heq
  rcases Decidable.em ((if useNPMI then npmi opts e.source e.target counts
      else pmi opts e.source e.target counts) < 0) with hlt | hge
  · rw [if_pos ⟨rfl, hlt⟩] at heq
    cases heq
  · rw [if_neg (fun h => hge h.2)] at heq
    rw [Option.some.injEq] at heq
    subst heq
    exact ⟨not_lt.mp hge, e, he, rfl, rfl, rfl, rfl⟩

/-! ## Claim C8: invariants of the co-occurrence builders -/

theorem mem_jset_elim {K V : Type} [DecidableEq K] {m : JMap K V} {k : K} {v : V}
    {p : K × V} (hp : p ∈ jset m k v) : p ∈ m ∨ p = (k, v) := by
  induction m with
  | nil =>
    simp [jset] at hp
    exact Or.inr hp
  | cons q rest ih =>
    obtain ⟨k0, v0⟩ := q
    by_cases h : k = k0
    · simp only [jset, if_pos h] at hp
      rcases List.mem_cons.mp hp with hp | hp
      · right; rw [hp, h]
      · exact Or.inl (List.mem_cons_of_mem _ hp)
    · simp only [jset, if_neg h] at hp
      rcases List.mem_cons.mp hp with hp | hp
      · exact Or.inl (hp ▸ List.mem_cons_self _ _)
      · rcases ih hp with hp | hp
        · exact Or.inl (List.mem_cons_of_mem _ hp)
        · exact Or.inr hp

theorem jget_mem {K V : Type} [DecidableEq K] {m : JMap K V} {k : K} {v : V}
    (h : jget m k = some v) : (k, v) ∈ m := by
  induction m with
  | nil => simp [jget] at h
  | cons q rest ih =>
    obtain ⟨k0, v0⟩ := q
    by_cases hk : k = k0
    · simp [jget, hk] at h
      subst hk h
      exact List.mem_cons_self _ _
    · simp [jget, hk] at h
      exact List.mem_cons_of_mem _ (ih h)

theorem mem_insertAscBy {α : Type} (f : α → ℚ) (x y : α) (l : List α) :
    y ∈ insertAscBy f x l ↔ y = x ∨ y ∈ l := by
  induction l with
  | nil => simp [insertAscBy]
  | cons d rest ih =>
    unfold insertAscBy
    split
    · simp only [List.mem_cons]
    · rw [List.mem_cons, ih, List.mem_cons]
      tauto

theorem mem_sortAscBy {α : Type} (f : α → ℚ) (l : List α) (y : α) :
    y ∈ sortAscBy f l ↔ y ∈ l := by
  have main : ∀ (l acc : List α),
      (y ∈ l.foldl (fun acc x => insertAscBy f x acc) acc ↔ y ∈ acc ∨ y ∈ l) := by
    intro l
    induction l with
    | nil => intro acc; simp
    | cons a rest ih =>
      intro acc
      rw [List.foldl_cons, ih, mem_insertAscBy]
      simp only [List.mem_cons]
      tauto
  unfold sortAscBy
  rw [main l []]
  simp

theorem getEdgeWeight_addNode (g : SimpleGraph') (n a b : String) :
    getEdgeWeight (addNode g n) a b = getEdgeWeight g a b := by
  unfold getEdgeWeight
  by_cases h : a = n
  · subst h
    rw [addNode_row_self]
    rfl
  · rw [addNode_row_other g n a h]

theorem hasEdge_addNode (g : SimpleGraph') (n a b : String) :
    hasEdge (addNode g n) a b = hasEdge g a b := by
  unfold hasEdge jhas
  by_cases h : a = n
  · subst h
    rw [addNode_row_self]
    rfl
  · rw [addNode_row_other g n a h]

/-- addEdge is exactly two rowBump operations after inserting both nodes. -/
theorem addEdge_edges (g : SimpleGraph') (s t : String) (w : ℚ) :
    (addEdge g s t w).edges
      = rowBump (rowBump (addNode (addNode g s) t).edges s t w) t s w := rfl

theorem weight2_rowBump (m : JMap String (JMap String ℚ)) (k k' : String) (w : ℚ)
    (a b : String) :
    (jget ((jget (rowBump m k k' w) a).getD []) b).getD 0
      = (jget ((jget m a).getD []) b).getD 0 + (if a = k ∧ b = k' then w else 0) := by
  unfold rowBump
  by_cases hak : a = k
  · subst hak
    rw [jget_jset_self, Option.getD_some]
    by_cases hbk : b = k'
    · subst hbk
      rw [jget_jset_self, Option.getD_some]
      simp
    · rw [jget_jset_other _ _ _ _ hbk]
      simp [hbk]
  · rw [jget_jset_other _ _ _ _ hak]
    simp [hak]

theorem isSome2_rowBump (m : JMap String (JMap String ℚ)) (k k' : String) (w : ℚ)
    (a b : String) :
    (jget ((jget (rowBump m k k' w) a).getD []) b).isSome
      = ((jget ((jget m a).getD []) b).isSome
          || (decide (a = k) && decide (b = k'))) := by
  unfold rowBump
  by_cases hak : a = k
  · subst hak
    rw [jget_jset_self, Option.getD_some]
    by_cases hbk : b = k'
    · subst hbk
      rw [jget_jset_self]
      simp
    · rw [jget_jset_other _ _ _ _ hbk]
      simp [hbk]
  · rw [jget_jset_other _ _ _ _ hak]
    simp [hak]

/-- The full weight formula of addEdge: the old weight plus w for the
(source, target) slot and plus w for the (target, source) slot; when
source = target = a = b both apply and the self-loop grows by 2w. -/
theorem getEdgeWeight_addEdge (g : SimpleGraph') (s t : String) (w : ℚ) (a b : String) :
    getEdgeWeight (addEdge g s t w) a b =
      getEdgeWeight g a b + (if a = s ∧ b = t then w else 0)
        + (if a = t ∧ b = s then w else 0) := by
  have h1 := getEdgeWeight_addNode (addNode g s) t a b
  have h2 := getEdgeWeight_addNode g s a b
  unfold getEdgeWeight at h1 h2 ⊢
  rw [addEdge_edges, weight2_rowBump, weight2_rowBump, h1, h2]

theorem hasEdge_addEdge (g : SimpleGraph') (s t : String) (w : ℚ) (a b : String) :
    hasEdge (addEdge g s t w) a b
      = (hasEdge g a b || (decide (a = s) && decide (b = t))
          || (decide (a = t) && decide (b = s))) := by
  have h1 := hasEdge_addNode (addNode g s) t a b
  have h2 := hasEdge_addNode g s a b
  unfold hasEdge jhas at h1 h2 ⊢
  rw [addEdge_edges, isSome2_rowBump, isSome2_rowBump, h1, h2]

theorem symmetricW_createGraph : SymmetricW createGraph := by
  intro a b
  rfl

theorem noSelfLoops_createGraph : NoSelfLoops createGraph := by
  intro a
  rfl

theorem nonnegW_createGraph : NonnegW createGraph := by
  intro p hp
  cases hp

theorem symmetricW_addEdge {g : SimpleGraph'} (hg : SymmetricW g) (s t : String)
    (w : ℚ) : SymmetricW (addEdge g s t w) := by
  intro a b
  rw [getEdgeWeight_addEdge, getEdgeWeight_addEdge, hg a b]
  have h1 : (a = s ∧ b = t) ↔ (b = t ∧ a = s) := and_comm
  have h2 : (a = t ∧ b = s) ↔ (b = s ∧ a = t) := and_comm
  rw [if_congr h1 rfl rfl, if_congr h2 rfl rfl]
  ring

theorem noSelfLoops_addEdge {g : SimpleGraph'} (hg : NoSelfLoops g) {s t : String}
    (hst : s ≠ t) (w : ℚ) : NoSelfLoops (addEdge g s t w) := by
  intro a
  rw [hasEdge_addEdge, hg a]
  by_cases has : a = s
  · subst has
    simp [fun h : a = t => hst h]
  · simp [has]

theorem rowBump_nonneg {m : JMap String (JMap String ℚ)}
    (hm : ∀ p ∈ m, ∀ q ∈ p.2, (0 : ℚ) ≤ q.2) (k k' : String) {w : ℚ} (hw : 0 ≤ w) :
    ∀ p ∈ rowBump m k k' w, ∀ q ∈ p.2, (0 : ℚ) ≤ q.2 := by
  have hr : ∀ q ∈ (jget m k).getD [], (0 : ℚ) ≤ q.2 := by
    cases h : jget m k with
    | none => intro q hq; cases hq
    | some row =>
      intro q hq
      exact hm (k, row) (jget_mem h) q (by simpa using hq)
  have hx : (0 : ℚ) ≤ (jget ((jget m k).getD []) k').getD 0 := by
    cases h : jget ((jget m k).getD []) k' with
    | none => simp
    | some v => simpa using hr (k', v) (jget_mem h)
  intro p hp q hq
  unfold rowBump at hp
  rcases mem_jset_elim hp with hp | hp
  · exact hm p hp q hq
  · subst hp
    rcases mem_jset_elim hq with hq | hq
    · exact hr q hq
    · subst hq
      exact add_nonneg hx hw

theorem nonnegW_addNode {g : SimpleGraph'} (hg : NonnegW g) (n : String) :
    NonnegW (addNode g n) := by
  intro p hp
  unfold addNode at hp
  dsimp only at hp
  by_cases h : jhas g.edges n
  · rw [if_pos h] at hp
    exact hg p hp
  · rw [if_neg h] at hp
    rcases mem_jset_elim hp with hp | hp
    · exact hg p hp
    · subst hp
      intro q hq
      cases hq

theorem nonnegW_addEdge {g : SimpleGraph'} (hg : NonnegW g) (s t : String) {w : ℚ}
    (hw : 0 ≤ w) : NonnegW (addEdge g s t w) := by
  intro p hp
  rw [addEdge_edges] at hp
  exact rowBump_nonneg
    (rowBump_nonneg (nonnegW_addNode (nonnegW_addNode hg s) t) s t hw) t s hw p hp

theorem jget_map_div (m : JMap String (JMap String ℚ)) (mw : ℚ) (k : String) :
    jget (m.map (fun row => (row.1, row.2.map (fun e => (e.1, e.2 / mw))))) k
      = (jget m k).map (fun row => row.map (fun e => (e.1, e.2 / mw))) := by
  induction m with
  | nil => rfl
  | cons p rest ih =>
    obtain ⟨k0, row0⟩ := p
    by_cases h : k = k0
    · simp [jget, h]
    · simp [jget, h, ih]

theorem jget_map_div_inner (row : JMap String ℚ) (mw : ℚ) (b : String) :
    jget (row.map (fun e => (e.1, e.2 / mw))) b = (jget row b).map (fun v => v / mw) := by
  induction row with
  | nil => rfl
  | cons p rest ih =>
    obtain ⟨k0, v0⟩ := p
    by_cases h : b = k0
    · simp [jget, h]
    · simp [jget, h, ih]

theorem getEdgeWeight_mapDiv (ns ns' : List String) (m : JMap String (JMap String ℚ))
    (mw : ℚ) (a b : String) :
    getEdgeWeight
        { nodes := ns,
          edges := m.map (fun row => (row.1, row.2.map (fun e => (e.1, e.2 / mw)))) }
        a b
      = getEdgeWeight { nodes := ns', edges := m } a b / mw := by
  unfold getEdgeWeight
  dsimp only
  rw [jget_map_div]
  cases h : jget m a with
  | none => simp [jget]
  | some row =>
    simp only [Option.map_some', Option.getD_some]
    rw [jget_map_div_inner]
    cases h2 : jget row b with
    | none => simp
    | some v => simp

theorem hasEdge_mapDiv (ns ns' : List String) (m : JMap String (JMap String ℚ))
    (mw : ℚ) (a b : String) :
    hasEdge
        { nodes := ns,
          edges := m.map (fun row => (row.1, row.2.map (fun e => (e.1, e.2 / mw)))) }
        a b
      = hasEdge { nodes := ns', edges := m } a b := by
  unfold hasEdge jhas
  dsimp only
  rw [jget_map_div]
  cases h : jget m a with
  | none => simp
  | some row =>
    simp only [Option.map_some', Option.getD_some]
    rw [jget_map_div_inner]
    cases h2 : jget row b with
    | none => simp
    | some v => simp

theorem init_le_foldl_max_inner (l : JMap String ℚ) (a : ℚ) :
    a ≤ l.foldl (fun mw e => max mw e.2) a := by
  induction l generalizing a with
  | nil => exact le_refl a
  | cons e rest ih =>
    rw [List.foldl_cons]
    exact le_trans (le_max_left a e.2) (ih _)

theorem init_le_foldl_max_outer (l : JMap String (JMap String ℚ)) (a : ℚ) :
    a ≤ l.foldl (fun mw row => row.2.foldl (fun mw e => max mw e.2) mw) a := by
  induction l generalizing a with
  | nil => exact le_refl a
  | cons r rest ih =>
    rw [List.foldl_cons]
    exact le_trans (init_le_foldl_max_inner r.2 a) (ih _)

theorem symmetricW_normalizeWeights {g : SimpleGraph'} (hg : SymmetricW g) :
    SymmetricW (normalizeWeights g) := by
  unfold normalizeWeights
  dsimp only
  split
  · exact hg
  · intro a b
    rw [getEdgeWeight_mapDiv g.nodes g.nodes, getEdgeWeight_mapDiv g.nodes g.nodes]
    have : ({ nodes := g.nodes, edges := g.edges } : SimpleGraph') = g := rfl
    rw [this, hg a b]

theorem noSelfLoops_normalizeWeights {g : SimpleGraph'} (hg : NoSelfLoops g) :
    NoSelfLoops (normalizeWeights g) := by
  unfold normalizeWeights
  dsimp only
  split
  · exact hg
  · intro a
    rw [hasEdge_mapDiv g.nodes g.nodes]
    have : ({ nodes := g.nodes, edges := g.edges } : SimpleGraph') = g := rfl
    rw [this, hg a]

theorem nonnegW_normalizeWeights {g : SimpleGraph'} (hg : NonnegW g) :
    NonnegW (normalizeWeights g) := by
  unfold normalizeWeights
  dsimp only
  split
  · exact hg
  · intro p hp q hq
    rw [List.mem_map] at hp
    obtain ⟨p0, hp0, hpe⟩ := hp
    subst hpe
    dsimp only at hq
    rw [List.mem_map] at hq
    obtain ⟨q0, hq0, hqe⟩ := hq
    subst hqe
    dsimp only
    have hmw : (0 : ℚ) ≤ g.edges.foldl
        (fun mw row => row.2.foldl (fun mw e => max mw e.2) mw) 0 :=
      init_le_foldl_max_outer g.edges 0
    exact div_nonneg (hg p0 hp0 q0 hq0) hmw

theorem splitBarsGo_no_bar {l : List Char} (hl : '|' ∉ l) (cur : List Char) :
    splitBarsGo l cur = [cur.reverse ++ l] := by
  induction l generalizing cur with
  | nil => simp [splitBarsGo]
  | cons c rest ih =>
    rw [List.mem_cons] at hl
    push_neg at hl
    rw [splitBarsGo, if_neg (fun h => hl.1 h.1.symm), ih hl.2]
    simp

theorem splitBarsGo_append {x : List Char} (hx : '|' ∉ x) (y : List Char)
    (cur : List Char) :
    splitBarsGo (x ++ '|' :: '|' :: '|' :: y) cur
      = (cur.reverse ++ x) :: splitBarsGo y [] := by
  induction x generalizing cur with
  | nil =>
    rw [List.nil_append, splitBarsGo, if_pos (by simp)]
    simp
  | cons c rest ih =>
    rw [List.mem_cons] at hx
    push_neg at hx
    rw [List.cons_append, splitBarsGo, if_neg (fun h => hx.1 h.1.symm), ih hx.2]
    simp

theorem splitTripleBar_append {x y : String} (hx : BarFree x) (hy : BarFree y) :
    splitTripleBar (x ++ "|||" ++ y) = [x, y] := by
  unfold splitTripleBar
  have hdata : (x ++ "|||" ++ y).toList
      = x.toList ++ '|' :: '|' :: '|' :: y.toList := by
    simp [String.toList, String.data_append]
  rw [hdata, splitBarsGo_append hx y.toList [], splitBarsGo_no_bar hy]
  simp only [List.reverse_nil, List.nil_append, List.map_cons, List.map_nil]
  cases x with
  | mk dx =>
    cases y with
    | mk dy => rfl

theorem goodKey_parts {k : String} (hk : GoodKey k) :
    (splitTripleBar k).headD "" ≠ ((splitTripleBar k).drop 1).headD "" := by
  obtain ⟨x, y, hx, hy, hxy, hke⟩ := hk
  subst hke
  rw [splitTripleBar_append hx hy]
  exact hxy

theorem tripleBarKey_good {a b : String} (ha : BarFree a) (hb : BarFree b)
    (hab : a ≠ b) : GoodKey (tripleBarKey a b) := by
  unfold tripleBarKey
  split
  · exact ⟨b, a, hb, ha, fun h => hab h.symm, rfl⟩
  · exact ⟨a, b, ha, hb, hab, rfl⟩

theorem bumpInv_nil (Q : String → Prop) : BumpInv Q ([] : JMap String ℚ) := by
  intro p hp
  cases hp

theorem bumpInv_bumpKey {Q : String → Prop} {m : JMap String ℚ} (hm : BumpInv Q m)
    {k : String} (hk : Q k) : BumpInv Q (bumpKey m k) := by
  have hx : (0 : ℚ) ≤ (jget m k).getD 0 := by
    cases h : jget m k with
    | none => simp
    | some v => simpa using (hm (k, v) (jget_mem h)).1
  intro p hp
  unfold bumpKey at hp
  rcases mem_jset_elim hp with hp | hp
  · exact hm p hp
  · subst hp
    exact ⟨by positivity, hk⟩

theorem cooccInnerPos_inv {Q : String → Prop} (wc : ℚ) (mi : MentionWithEntity)
    (l : List MentionWithEntity)
    (hkeys : ∀ mj ∈ l, mi.entityId ≠ mj.entityId →
      Q (tripleBarKey mi.entityId mj.entityId))
    {acc : JMap String ℚ} (hacc : BumpInv Q acc) :
    BumpInv Q (cooccInnerPos wc mi l acc) := by
  induction l generalizing acc with
  | nil => exact hacc
  | cons mj rest ih =>
    have hkr : ∀ m ∈ rest, mi.entityId ≠ m.entityId →
        Q (tripleBarKey mi.entityId m.entityId) :=
      fun m hm => hkeys m (List.mem_cons_of_mem _ hm)
    rw [cooccInnerPos]
    split
    · exact hacc
    · split
      · exact ih hkr hacc
      · split
        · exact ih hkr hacc
        · rename_i hne
          exact ih hkr (bumpInv_bumpKey hacc
            (hkeys mj (List.mem_cons_self _ _) hne))

theorem cooccOuterPos_inv {Q : String → Prop} (wc : ℚ) (l : List MentionWithEntity)
    (hkeys : ∀ m1 ∈ l, ∀ m2 ∈ l, m1.entityId ≠ m2.entityId →
      Q (tripleBarKey m1.entityId m2.entityId))
    {acc : JMap String ℚ} (hacc : BumpInv Q acc) :
    BumpInv Q (cooccOuterPos wc l acc) := by
  induction l generalizing acc with
  | nil => exact hacc
  | cons mi rest ih =>
    rw [cooccOuterPos]
    exact ih
      (fun m1 h1 m2 h2 => hkeys m1 (List.mem_cons_of_mem _ h1)
        m2 (List.mem_cons_of_mem _ h2))
      (cooccInnerPos_inv wc mi rest
        (fun mj hj => hkeys mi (List.mem_cons_self _ _) mj
          (List.mem_cons_of_mem _ hj)) hacc)

theorem cooccInnerWord_inv {Q : String → Prop} (ws : ℚ) (mi : MentionWithEntity)
    (w1 : ℕ) (l : List (MentionWithEntity × Option ℕ))
    (hkeys : ∀ p ∈ l, mi.entityId ≠ p.1.entityId →
      Q (tripleBarKey mi.entityId p.1.entityId))
    {acc : JMap String ℚ} (hacc : BumpInv Q acc) :
    BumpInv Q (cooccInnerWord ws mi w1 l acc) := by
  induction l generalizing acc with
  | nil => exact hacc
  | cons p rest ih =>
    have hkr : ∀ p ∈ rest, mi.entityId ≠ p.1.entityId →
        Q (tripleBarKey mi.entityId p.1.entityId) :=
      fun p hp => hkeys p (List.mem_cons_of_mem _ hp)
    rw [cooccInnerWord]
    cases hw : p.2 with
    | none => exact ih hkr hacc
    | some w2 =>
      dsimp only
      split
      · exact ih hkr hacc
      · split
        · exact ih hkr hacc
        · rename_i hne
          exact ih hkr (bumpInv_bumpKey hacc
            (hkeys p (List.mem_cons_self _ _) hne))

theorem cooccOuterWord_inv {Q : String → Prop} (ws : ℚ)
    (l : List (MentionWithEntity × Option ℕ))
    (hkeys : ∀ p1 ∈ l, ∀ p2 ∈ l, p1.1.entityId ≠ p2.1.entityId →
      Q (tripleBarKey p1.1.entityId p2.1.entityId))
    {acc : JMap String ℚ} (hacc : BumpInv Q acc) :
    BumpInv Q (cooccOuterWord ws l acc) := by
  induction l generalizing acc with
  | nil => exact hacc
  | cons p rest ih =>
    have hkr : ∀ p1 ∈ rest, ∀ p2 ∈ rest, p1.1.entityId ≠ p2.1.entityId →
        Q (tripleBarKey p1.1.entityId p2.1.entityId) :=
      fun p1 h1 p2 h2 => hkeys p1 (List.mem_cons_of_mem _ h1)
        p2 (List.mem_cons_of_mem _ h2)
    rw [cooccOuterWord]
    cases hw : p.2 with
    | none => exact ih hkr hacc
    | some w1 =>
      exact ih hkr (cooccInnerWord_inv ws p.1 w1 rest
        (fun q hq => hkeys p (List.mem_cons_self _ _) q
          (List.mem_cons_of_mem _ hq)) hacc)

theorem calculateCooccurrences_inv {Q : String → Prop}
    (mentions : List MentionWithEntity) (text : String) (ws : ℚ) (up : Bool)
    (hkeys : ∀ m1 ∈ mentions, ∀ m2 ∈ mentions, m1.entityId ≠ m2.entityId →
      Q (tripleBarKey m1.entityId m2.entityId)) :
    BumpInv Q (calculateCooccurrences mentions text ws up) := by
  unfold calculateCooccurrences
  split
  · exact cooccOuterPos_inv _ mentions hkeys (bumpInv_nil Q)
  · refine cooccOuterWord_inv ws _ ?_ (bumpInv_nil Q)
    intro p1 h1 p2 h2
    rw [List.mem_map] at h1 h2
    obtain ⟨m1, hm1, he1⟩ := h1
    obtain ⟨m2, hm2, he2⟩ := h2
    subst he1 he2
    exact hkeys m1 hm1 m2 hm2

theorem sentencePairsInner_inv {Q : String → Prop} (e1 : Entity2) (l : List Entity2)
    (hkeys : ∀ e2 ∈ l, e1.id ≠ e2.id → Q (tripleBarKey e1.id e2.id))
    {acc : JMap String ℚ} (hacc : BumpInv Q acc) :
    BumpInv Q (sentencePairsInner e1 l acc) := by
  induction l generalizing acc with
  | nil => exact hacc
  | cons e2 rest ih =>
    have hkr : ∀ e ∈ rest, e1.id ≠ e.id → Q (tripleBarKey e1.id e.id) :=
      fun e he => hkeys e (List.mem_cons_of_mem _ he)
    rw [sentencePairsInner]
    split
    · exact ih hkr hacc
    · rename_i hne
      exact ih hkr (bumpInv_bumpKey hacc (hkeys e2 (List.mem_cons_self _ _) hne))

theorem sentencePairs_inv {Q : String → Prop} (l : List Entity2)
    (hkeys : ∀ e1 ∈ l, ∀ e2 ∈ l, e1.id ≠ e2.id → Q (tripleBarKey e1.id e2.id))
    {acc : JMap String ℚ} (hacc : BumpInv Q acc) :
    BumpInv Q (sentencePairs l acc) := by
  induction l generalizing acc with
  | nil => exact hacc
  | cons e1 rest ih =>
    rw [sentencePairs]
    exact ih
      (fun a ha b hb => hkeys a (List.mem_cons_of_mem _ ha)
        b (List.mem_cons_of_mem _ hb))
      (sentencePairsInner_inv e1 rest
        (fun e2 he => hkeys e1 (List.mem_cons_self _ _) e2
          (List.mem_cons_of_mem _ he)) hacc)

theorem sentenceLoop_inv {Q : String → Prop} (entities : List Entity2)
    (sents : List String) (off : ℚ)
    (hkeys : ∀ e1 ∈ entities, ∀ e2 ∈ entities, e1.id ≠ e2.id →
      Q (tripleBarKey e1.id e2.id))
    {acc : JMap String ℚ} (hacc : BumpInv Q acc) :
    BumpInv Q (sentenceLoop entities sents off acc) := by
  induction sents generalizing off acc with
  | nil => exact hacc
  | cons s rest ih =>
    rw [sentenceLoop]
    exact ih _ (sentencePairs_inv _
      (fun e1 h1 e2 h2 => hkeys e1 (List.mem_filter.mp h1).1
        e2 (List.mem_filter.mp h2).1) hacc)

theorem mem_flattenMentions {entities : List Entity2} {m : MentionWithEntity}
    (hm : m ∈ flattenMentions entities) : ∃ e ∈ entities, m.entityId = e.id := by
  have main : ∀ (l : List Entity2) (acc : List MentionWithEntity),
      m ∈ l.foldl (fun acc entity =>
        acc ++ entity.mentions.map (fun mn =>
          { entityId := entity.id, entityName := entity.name,
            startPosition := mn.startPosition,
            endPosition := mn.endPosition })) acc →
      m ∈ acc ∨ ∃ e ∈ l, m.entityId = e.id := by
    intro l
    induction l with
    | nil => intro acc h; exact Or.inl h
    | cons e rest ih =>
      intro acc h
      rcases ih _ h with h | ⟨e', he', hid⟩
      · rw [List.mem_append] at h
        rcases h with h | h
        · exact Or.inl h
        · rw [List.mem_map] at h
          obtain ⟨mn, _, hme⟩ := h
          exact Or.inr ⟨e, List.mem_cons_self _ _, by rw [← hme]⟩
      · exact Or.inr ⟨e', List.mem_cons_of_mem _ he', hid⟩
  unfold flattenMentions at hm
  rcases main entities [] hm with h | h
  · cases h
  · exact h

theorem addCooccurrenceEdges_pres (P : SimpleGraph' → Prop) (c : JMap String ℚ)
    (mw : ℚ)
    (h : ∀ g' p, p ∈ c → P g' →
      P (addEdge g' ((splitTripleBar p.1).headD "")
          (((splitTripleBar p.1).drop 1).headD "") p.2))
    (g : SimpleGraph') (hg : P g) : P (addCooccurrenceEdges c mw g) := by
  unfold addCooccurrenceEdges
  induction c generalizing g with
  | nil => exact hg
  | cons p rest ih =>
    rw [List.foldl_cons]
    refine ih (fun g' q hq hg' => h g' q (List.mem_cons_of_mem _ hq) hg') _ ?_
    dsimp only
    split
    · exact h g p (List.mem_cons_self _ _) hg
    · exact hg

theorem buildCooccurrence_inv (entities : List Entity2) (text : String)
    (opts : CooccurrenceOptions') :
    SymmetricW (buildCooccurrenceGraph entities text opts) ∧
    NonnegW (buildCooccurrenceGraph entities text opts) ∧
    ((∀ e ∈ entities, BarFree e.id) →
      NoSelfLoops (buildCooccurrenceGraph entities text opts)) := by
  have hnn : BumpInv (fun _ => True)
      (calculateCooccurrences
        (sortAscBy (fun m => m.startPosition) (flattenMentions entities))
        text opts.windowSize opts.usePositions) :=
    calculateCooccurrences_inv _ _ _ _ (fun _ _ _ _ _ => trivial)
  unfold buildCooccurrenceGraph
  dsimp only
  refine ⟨?_, ?_, ?_⟩
  · split
    · exact symmetricW_normalizeWeights
        (addCooccurrenceEdges_pres SymmetricW _ _
          (fun g' p _ hg' => symmetricW_addEdge hg' _ _ _) _ symmetricW_createGraph)
    · exact addCooccurrenceEdges_pres SymmetricW _ _
        (fun g' p _ hg' => symmetricW_addEdge hg' _ _ _) _ symmetricW_createGraph
  · split
    · exact nonnegW_normalizeWeights
        (addCooccurrenceEdges_pres NonnegW _ _
          (fun g' p hp hg' => nonnegW_addEdge hg' _ _ (hnn p hp).1) _
          nonnegW_createGraph)
    · exact addCooccurrenceEdges_pres NonnegW _ _
        (fun g' p hp hg' => nonnegW_addEdge hg' _ _ (hnn p hp).1) _
        nonnegW_createGraph
  · intro hbar
    have hgk : BumpInv GoodKey
        (calculateCooccurrences
          (sortAscBy (fun m => m.startPosition) (flattenMentions entities))
          text opts.windowSize opts.usePositions) := by
      refine calculateCooccurrences_inv _ _ _ _ ?_
      intro m1 h1 m2 h2 hne
      obtain ⟨e1, he1, hid1⟩ := mem_flattenMentions ((mem_sortAscBy _ _ _).mp h1)
      obtain ⟨e2, he2, hid2⟩ := mem_flattenMentions ((mem_sortAscBy _ _ _).mp h2)
      exact tripleBarKey_good (hid1 ▸ hbar e1 he1) (hid2 ▸ hbar e2 he2) hne
    split
    · exact noSelfLoops_normalizeWeights
        (addCooccurrenceEdges_pres NoSelfLoops _ _
          (fun g' p hp hg' =>
            noSelfLoops_addEdge hg' (goodKey_parts (hgk p hp).2) _) _
          noSelfLoops_createGraph)
    · exact addCooccurrenceEdges_pres NoSelfLoops _ _
        (fun g' p hp hg' =>
          noSelfLoops_addEdge hg' (goodKey_parts (hgk p hp).2) _) _
        noSelfLoops_createGraph

theorem buildSentenceCooccurrence_inv (entities : List Entity2) (text : String)
    (opts : CooccurrenceOptions') :
    SymmetricW (buildSentenceCooccurrenceGraph entities text opts) ∧
    NonnegW (buildSentenceCooccurrenceGraph entities text opts) ∧
    ((∀ e ∈ entities, BarFree e.id) →
      NoSelfLoops (buildSentenceCooccurrenceGraph entities text opts)) := by
  have hnn : BumpInv (fun _ => True)
      (sentenceLoop entities (jsSplitSentences text) 0 []) :=
    sentenceLoop_inv _ _ _ (fun _ _ _ _ _ => trivial) (bumpInv_nil _)
  unfold buildSentenceCooccurrenceGraph
  dsimp only
  refine ⟨?_, ?_, ?_⟩
  · exact addCooccurrenceEdges_pres SymmetricW _ _
      (fun g' p _ hg' => symmetricW_addEdge hg' _ _ _) _ symmetricW_createGraph
  · exact addCooccurrenceEdges_pres NonnegW _ _
      (fun g' p hp hg' => nonnegW_addEdge hg' _ _ (hnn p hp).1) _
      nonnegW_createGraph
  · intro hbar
    have hgk : BumpInv GoodKey
        (sentenceLoop entities (jsSplitSentences text) 0 []) := by
      refine sentenceLoop_inv _ _ _ ?_ (bumpInv_nil _)
      intro e1 h1 e2 h2 hne
      exact tripleBarKey_good (hbar e1 h1) (hbar e2 h2) hne
    exact addCooccurrenceEdges_pres NoSelfLoops _ _
      (fun g' p hp hg' =>
        noSelfLoops_addEdge hg' (goodKey_parts (hgk p hp).2) _) _
      noSelfLoops_createGraph

set_option maxHeartbeats 1000000 in
/-- Claim C8: for every entity list, source text and options, the graphs
produced by buildCooccurrenceGraph and buildSentenceCooccurrenceGraph have
symmetric edge weights and non-negative stored weights; the no-self-loop
part of the claim holds provided no entity id contains the bar character
(otherwise the three-bar edge-key encoding can be decoded into two equal
ids and a self-loop is created, see the counterexample). -/
theorem claim_C8_amended (entities : List Entity2) (sourceText : String)
    (options : CooccurrenceOptions') :
    SymmetricW (buildCooccurrenceGraph entities sourceText options) ∧
    NonnegW (buildCooccurrenceGraph entities sourceText options) ∧
    SymmetricW (buildSentenceCooccurrenceGraph entities sourceText options) ∧
    NonnegW (buildSentenceCooccurrenceGraph entities sourceText options) ∧
    ((∀ e ∈ entities, BarFree e.id) →
      NoSelfLoops (buildCooccurrenceGraph entities sourceText options) ∧
      NoSelfLoops (buildSentenceCooccurrenceGraph entities sourceText options)) := by
  obtain ⟨h1, h2, h3⟩ := buildCooccurrence_inv entities sourceText options
  obtain ⟨h4, h5, h6⟩ := buildSentenceCooccurrence_inv entities sourceText options
  exact ⟨h1, h2, h4, h5, fun hbar => ⟨h3 hbar, h6 hbar⟩⟩

/-- Witness for claim C8: at a concrete bar-free input the position builder
has symmetric weights and no self-loop at the entity's own node. -/
theorem claim_C8_witness :
    getEdgeWeight (buildCooccurrenceGraph [entityX] "" defaultCooccurrenceOptions)
        "a" "b"
      = getEdgeWeight (buildCooccurrenceGraph [entityX] "" defaultCooccurrenceOptions)
        "b" "a" ∧
    hasEdge (buildCooccurrenceGraph [entityX] "" defaultCooccurrenceOptions)
      "x" "x" = false :=
  ⟨(claim_C8_amended [entityX] "" defaultCooccurrenceOptions).1 "a" "b",
   ((claim_C8_amended [entityX] "" defaultCooccurrenceOptions).2.2.2.2
      (by decide)).1 "x"⟩

theorem sortAscBy_xbars :
    sortAscBy (fun m => m.startPosition) (flattenMentions [entityX, entityXbars])
      = [⟨"x", "x", 0, 1⟩, ⟨"x|||x", "xb", 2, 3⟩,
         ⟨"x", "x", 10, 11⟩, ⟨"x|||x", "xb", 12, 13⟩] := by
  simp [flattenMentions, entityX, entityXbars, sortAscBy, insertAscBy]
  norm_num

theorem calc_xbars :
    calculateCooccurrences
        (sortAscBy (fun m => m.startPosition) (flattenMentions [entityX, entityXbars]))
        "" 5 true
      = [("x|||x|||x", 4)] := by
  rw [sortAscBy_xbars]
  simp [calculateCooccurrences, cooccOuterPos, cooccInnerPos, bumpKey,
    tripleBarKey, jsLtStr, charListLt, jget, jset]
  norm_num [jget, jset]

set_option maxHeartbeats 1000000 in
/-- Counterexample to the no-self-loop part of claim C8: an entity whose id
contains the three-bar separator makes the canonical edge key decode into
two equal ids, and buildCooccurrenceGraph stores a self-loop at node x. -/
theorem claim_C8_counterexample :
    hasEdge (buildCooccurrenceGraph [entityX, entityXbars] ""
        defaultCooccurrenceOptions) "x" "x" = true := by
  unfold buildCooccurrenceGraph defaultCooccurrenceOptions
  dsimp only
  rw [calc_xbars]
  simp [addCooccurrenceEdges, splitTripleBar, splitBarsGo, addEdge, addNode,
    createGraph, jadd, jhas, jget, jset, hasEdge]

end SeoKG
